import Mathlib

/-!
# PEtransfer: transplanting a PE header while keeping the target's resources

A shallow embedding of `src/PEtransfer.c`.

* A file is its byte contents (`List Nat`, every byte below 256 in a real file).
* A `FILE` stream is the contents together with the file-position cursor; `fseek`, `fread`
  and `fwrite` are explicit state transformers.  A seek to a negative position fails and
  leaves the cursor where it was, as the C library does; the program never looks at the
  return value of `fseek`.
* The records `IMAGE_DOS_HEADER`, `IMAGE_NT_HEADERS`, `IMAGE_SECTION_HEADER`, ... are read and
  written as raw memory, so a record is the list of bytes that was read and its fields are
  decoded little-endian at the offsets `windows.h` fixes.  `windows.h` is not part of the
  repository; the two layouts it can give to `IMAGE_NT_HEADERS` are the two values of `Arch`.
* `long` is 32 bits wide (the Windows data model): the offset handed to `fseek` is the
  mathematical value reduced to a signed 32-bit integer (`toLong`).
* The disk never fails a write and `malloc` never returns `NULL`; both files can be opened.
-/

namespace PEtransfer

/-! ## Layout constants (from `windows.h`) -/

/-- The two layouts of `IMAGE_NT_HEADERS`: `IMAGE_NT_HEADERS32` and `IMAGE_NT_HEADERS64`. -/
inductive Arch where
  | x86
  | x64
deriving DecidableEq, Repr

/-- The value of `sizeof(IMAGE_DOS_HEADER)`. -/
def sizeofDosHeader : Nat := 64

/-- The value of `sizeof(IMAGE_NT_HEADERS)`: signature 4, file header 20, optional header 224 or 240. -/
def sizeofNtHeaders : Arch → Nat
  | .x86 => 248
  | .x64 => 264

/-- The value of `offsetof(IMAGE_NT_HEADERS, OptionalHeader.DataDirectory[IMAGE_DIRECTORY_ENTRY_RESOURCE])`. -/
def offsetofResourceDir : Arch → Nat
  | .x86 => 136
  | .x64 => 152

/-- The value of `sizeof(IMAGE_DATA_DIRECTORY)`. -/
def sizeofDataDirectory : Nat := 8

/-- The value of `sizeof(IMAGE_SECTION_HEADER)`. -/
def sizeofSectionHeader : Nat := 40

/-- The value of `sizeof(IMAGE_RESOURCE_DIRECTORY)`. -/
def sizeofResourceDirectory : Nat := 16

/-- The value of `sizeof(IMAGE_RESOURCE_DIRECTORY_ENTRY)`. -/
def sizeofResourceDirectoryEntry : Nat := 8

/-- The constant `IMAGE_DOS_SIGNATURE`, the bytes `MZ`. -/
def IMAGE_DOS_SIGNATURE : Nat := 0x5A4D

/-- The constant `IMAGE_NT_SIGNATURE`, the bytes `PE\0\0`. -/
def IMAGE_NT_SIGNATURE : Nat := 0x00004550

/-! ## Decoding fields out of raw records -/

/-- A little-endian `WORD` at byte offset `off` of a record. -/
def le16 (b : List Nat) (off : Nat) : Nat :=
  b.getD off 0 + 256 * b.getD (off + 1) 0

/-- A little-endian `DWORD` at byte offset `off` of a record. -/
def le32 (b : List Nat) (off : Nat) : Nat :=
  b.getD off 0 + 256 * b.getD (off + 1) 0 + 65536 * b.getD (off + 2) 0
    + 16777216 * b.getD (off + 3) 0

/-- A little-endian `ULONGLONG` at byte offset `off` of a record. -/
def le64 (b : List Nat) (off : Nat) : Nat :=
  le32 b off + 4294967296 * le32 b (off + 4)

/-- Conversion of an integer to `long` (32 bits, two's complement): the value is reduced
modulo 2^32 and the upper half of the range is read as negative. -/
def toLong (x : Int) : Int :=
  if (x % 4294967296).toNat < 2147483648 then ((x % 4294967296).toNat : Int)
  else ((x % 4294967296).toNat : Int) - 4294967296

/-- Field `e_magic` of an `IMAGE_DOS_HEADER`. -/
def e_magic (dos : List Nat) : Nat := le16 dos 0

/-- Field `e_lfanew` of an `IMAGE_DOS_HEADER` (a signed `LONG` at offset 60). -/
def e_lfanew (dos : List Nat) : Int := toLong (le32 dos 60)

/-- Field `Signature` of an `IMAGE_NT_HEADERS`. -/
def Signature (nt : List Nat) : Nat := le32 nt 0

/-- Field `FileHeader.NumberOfSections` of an `IMAGE_NT_HEADERS`. -/
def NumberOfSections (nt : List Nat) : Nat := le16 nt 6

/-- Field `OptionalHeader.ImageBase` of an `IMAGE_NT_HEADERS`: a `DWORD` at 52 or a
`ULONGLONG` at 48. -/
def ImageBase (a : Arch) (nt : List Nat) : Nat :=
  match a with
  | .x86 => le32 nt 52
  | .x64 => le64 nt 48

/-- The record `OptionalHeader.DataDirectory[IMAGE_DIRECTORY_ENTRY_RESOURCE]` of an
`IMAGE_NT_HEADERS`. -/
def resourceDataDirectory (a : Arch) (nt : List Nat) : List Nat :=
  (nt.drop (offsetofResourceDir a)).take sizeofDataDirectory

/-- Field `VirtualAddress` of an `IMAGE_DATA_DIRECTORY`. -/
def VirtualAddress (dd : List Nat) : Nat := le32 dd 0

/-- Field `Size` of an `IMAGE_DATA_DIRECTORY`. -/
def Size (dd : List Nat) : Nat := le32 dd 4

/-- Field `NumberOfNamedEntries` of an `IMAGE_RESOURCE_DIRECTORY`. -/
def NumberOfNamedEntries (rd : List Nat) : Nat := le16 rd 12

/-- Field `NumberOfIdEntries` of an `IMAGE_RESOURCE_DIRECTORY`. -/
def NumberOfIdEntries (rd : List Nat) : Nat := le16 rd 14

/-- Bit field `NameIsString` of an `IMAGE_RESOURCE_DIRECTORY_ENTRY`: bit 31 of the first `DWORD`. -/
def NameIsString (e : List Nat) : Nat := le32 e 0 / 2147483648 % 2

/-- Field `Id` of an `IMAGE_RESOURCE_DIRECTORY_ENTRY`: the low `WORD` of the first `DWORD`. -/
def Id (e : List Nat) : Nat := le16 e 0

/-- Field `Name` of an `IMAGE_SECTION_HEADER`: its first 8 bytes. -/
def Name (sec : List Nat) : List Nat := sec.take 8

/-- The string literal `".rsrc"` with its terminating NUL. -/
def rsrcLiteral : List Nat := [46, 114, 115, 114, 99, 0]

/-- The C library `strncmp`: compares at most `n` bytes and stops after a NUL.  Reading past
the end of a list yields NUL. -/
def strncmp (s1 s2 : List Nat) : Nat → Int
  | 0 => 0
  | n + 1 =>
    if s1.headD 0 ≠ s2.headD 0 then (s1.headD 0 : Int) - (s2.headD 0 : Int)
    else if s1.headD 0 = 0 then 0
    else strncmp s1.tail s2.tail n

/-- Element `i` of an array of `IMAGE_SECTION_HEADER` held in a raw buffer. -/
def sectionAt (buf : List Nat) (i : Nat) : List Nat :=
  (buf.drop (sizeofSectionHeader * i)).take sizeofSectionHeader

/-! ## The stdio model -/

/-- An open stream: the contents of the file, the position cursor, and the number of
`fread` calls made on the stream so far. -/
structure FILE where
  data : List Nat
  pos : Nat
  freads : Nat
deriving DecidableEq, Repr

/-- A freshly opened stream. -/
def fopen (contents : List Nat) : FILE :=
  { data := contents, pos := 0, freads := 0 }

/-- The call `fseek(f, off, SEEK_SET)`: fails, leaving the cursor alone, on a negative position. -/
def fseekSet (f : FILE) (off : Int) : FILE :=
  if off < 0 then f else { f with pos := off.toNat }

/-- The call `fseek(f, off, SEEK_CUR)`: fails, leaving the cursor alone, on a negative position. -/
def fseekCur (f : FILE) (off : Int) : FILE :=
  if (f.pos : Int) + off < 0 then f else { f with pos := ((f.pos : Int) + off).toNat }

/-- What `fread` hands back: the bytes stored in the buffer, the number of complete items,
and the stream afterwards. -/
structure ReadResult where
  buf : List Nat
  items : Nat
  file : FILE

/-- The call `fread(buf, size, count, f)`: transfers up to `size * count` bytes from the cursor. -/
def fread (f : FILE) (size count : Nat) : ReadResult :=
  { buf := (f.data.drop f.pos).take (size * count)
    items := ((f.data.drop f.pos).take (size * count)).length / size
    file := { f with pos := f.pos + ((f.data.drop f.pos).take (size * count)).length
                     freads := f.freads + 1 } }

/-- The contents of a file after `bs` is written at position `p`: a gap between the old end of
file and `p` is filled with zero bytes. -/
def writeAt (d : List Nat) (p : Nat) (bs : List Nat) : List Nat :=
  if bs.length = 0 then d
  else d.take p ++ List.replicate (p - d.length) 0 ++ bs ++ d.drop (p + bs.length)

/-- The call `fwrite(bs, |bs|, 1, f)`: stores the record at the cursor and advances the cursor. -/
def fwrite (f : FILE) (bs : List Nat) : FILE :=
  { f with data := writeAt f.data f.pos bs, pos := f.pos + bs.length }

/-! ## The program -/

/-- The lines the program prints. -/
inductive Msg where
  | errReadSrcDos
  | srcNoMZ
  | errReadTgtDos
  | tgtNoMZ
  | errReadSrcNt
  | srcBadPE
  | errReadTgtNt
  | tgtBadPE
  | errReadSrcSections
  | errReadTgtSections
  | warnNoRsrc
  | iconDetected
  | noResourceDir
  | summary (copy_sections : Bool)
deriving DecidableEq, Repr

/-- What a run leaves behind: both streams and the lines printed, in order. -/
structure Outcome where
  source : FILE
  target : FILE
  out : List Msg

/-- Lines 125-131: the first element of `tgtSections` whose name starts with `.rsrc`
(`rem` elements remain to be examined, starting with element `i`). -/
def locateLoop (tgtSections : List Nat) : Nat → Nat → Option (List Nat)
  | 0, _ => none
  | rem + 1, i =>
    if strncmp (Name (sectionAt tgtSections i)) rsrcLiteral 5 = 0 then
      some (sectionAt tgtSections i)
    else locateLoop tgtSections rem (i + 1)

/-- Lines 137-153: one `fwrite` per source section (`rem` elements remain, starting with
element `i`). -/
def writeLoop (tgtRsrcSection : Option (List Nat)) (srcSections : List Nat) :
    Nat → Nat → FILE → FILE
  | 0, _, target => target
  | rem + 1, i, target =>
    match tgtRsrcSection with
    | some r =>
      if strncmp (Name (sectionAt srcSections i)) rsrcLiteral 5 = 0 then
        writeLoop tgtRsrcSection srcSections rem (i + 1) (fwrite target r)
      else
        writeLoop tgtRsrcSection srcSections rem (i + 1)
          (fwrite target (sectionAt srcSections i))
    | none =>
      writeLoop tgtRsrcSection srcSections rem (i + 1)
        (fwrite target (sectionAt srcSections i))

/-- Lines 125-153: locate the target's `.rsrc` header, warn when there is none, seek to the
section table that follows the new headers and write the merged table. -/
def mergeSections (a : Arch) (srcLfanew : Int) (srcSections : List Nat) (srcSectionCount : Nat)
    (tgtSections : List Nat) (tgtSectionCount : Nat) (target : FILE) : List Msg × FILE :=
  let tgtRsrcSection := locateLoop tgtSections tgtSectionCount 0
  let target := fseekSet target (toLong (srcLfanew + (sizeofNtHeaders a : Int)))
  (if tgtRsrcSection.isNone then [Msg.warnNoRsrc] else [],
   writeLoop tgtRsrcSection srcSections srcSectionCount 0 target)

/-- Lines 166-173: the scan of the root entries (`rem` entries remain). -/
def iconLoop : Nat → FILE → List Msg × FILE
  | 0, target => ([], target)
  | rem + 1, target =>
    if (fread target sizeofResourceDirectoryEntry 1).items ≠ 1 then
      ([], (fread target sizeofResourceDirectoryEntry 1).file)
    else if NameIsString (fread target sizeofResourceDirectoryEntry 1).buf = 0
        ∧ Id (fread target sizeofResourceDirectoryEntry 1).buf = 3 then
      ([Msg.iconDetected], (fread target sizeofResourceDirectoryEntry 1).file)
    else iconLoop rem (fread target sizeofResourceDirectoryEntry 1).file

/-- Lines 158-177: the icon verification. -/
def iconProbe (a : Arch) (tgtDosHeader tgtNtHeaders tgtResourceDir : List Nat) (target : FILE) :
    List Msg × FILE :=
  if VirtualAddress tgtResourceDir ≠ 0 ∧ Size tgtResourceDir ≠ 0 then
    let target := fseekSet target
      (toLong ((VirtualAddress (resourceDataDirectory a tgtNtHeaders) : Int)
        - (ImageBase a tgtNtHeaders : Int) + e_lfanew tgtDosHeader))
    let r := fread target sizeofResourceDirectory 1
    if r.items = 1 then
      let entryCount := NumberOfNamedEntries r.buf + NumberOfIdEntries r.buf
      let target := fseekCur r.file (toLong (-(sizeofResourceDirectory : Int)))
      let target := fseekCur target (toLong (sizeofResourceDirectory : Int))
      iconLoop entryCount target
    else ([], r.file)
  else ([Msg.noResourceDir], target)

/-- Lines 95-156: the optional replacement of the section table.  The Boolean is `false` when
the step jumps to `cleanup`. -/
def sectionStep (a : Arch) (srcDosHeader srcNtHeaders tgtDosHeader tgtNtHeaders : List Nat)
    (source target : FILE) : Outcome × Bool :=
  let srcSectionCount := NumberOfSections srcNtHeaders
  let source := fseekSet source (toLong (e_lfanew srcDosHeader + (sizeofNtHeaders a : Int)))
  let rs := fread source sizeofSectionHeader srcSectionCount
  if rs.items ≠ srcSectionCount then (⟨rs.file, target, [Msg.errReadSrcSections]⟩, false) else
  let tgtSectionCount := NumberOfSections tgtNtHeaders
  let target := fseekSet target (toLong (e_lfanew tgtDosHeader + (sizeofNtHeaders a : Int)))
  let rt := fread target sizeofSectionHeader tgtSectionCount
  if rt.items ≠ tgtSectionCount then (⟨rs.file, rt.file, [Msg.errReadTgtSections]⟩, false) else
  let m := mergeSections a (e_lfanew srcDosHeader) rs.buf srcSectionCount rt.buf tgtSectionCount
    rt.file
  (⟨rs.file, m.2, m.1⟩, true)

/-- The function `copy_pe_header_with_resources` of `PEtransfer.c`, on the contents of the
two files. -/
def copy_pe_header_with_resources (a : Arch) (source_file target_file : List Nat)
    (copy_sections : Bool) : Outcome :=
  let source := fopen source_file
  let target := fopen target_file
  -- Read and validate source DOS header
  let rsd := fread source sizeofDosHeader 1
  if rsd.items ≠ 1 then ⟨rsd.file, target, [Msg.errReadSrcDos]⟩ else
  let srcDosHeader := rsd.buf
  if e_magic srcDosHeader ≠ IMAGE_DOS_SIGNATURE then ⟨rsd.file, target, [Msg.srcNoMZ]⟩ else
  -- Read and validate target DOS header
  let rtd := fread target sizeofDosHeader 1
  if rtd.items ≠ 1 then ⟨rsd.file, rtd.file, [Msg.errReadTgtDos]⟩ else
  let tgtDosHeader := rtd.buf
  if e_magic tgtDosHeader ≠ IMAGE_DOS_SIGNATURE then ⟨rsd.file, rtd.file, [Msg.tgtNoMZ]⟩ else
  -- Read source NT headers
  let rsn := fread (fseekSet rsd.file (e_lfanew srcDosHeader)) (sizeofNtHeaders a) 1
  if rsn.items ≠ 1 then ⟨rsn.file, rtd.file, [Msg.errReadSrcNt]⟩ else
  let srcNtHeaders := rsn.buf
  if Signature srcNtHeaders ≠ IMAGE_NT_SIGNATURE then ⟨rsn.file, rtd.file, [Msg.srcBadPE]⟩ else
  -- Read target NT headers
  let rtn := fread (fseekSet rtd.file (e_lfanew tgtDosHeader)) (sizeofNtHeaders a) 1
  if rtn.items ≠ 1 then ⟨rsn.file, rtn.file, [Msg.errReadTgtNt]⟩ else
  let tgtNtHeaders := rtn.buf
  if Signature tgtNtHeaders ≠ IMAGE_NT_SIGNATURE then ⟨rsn.file, rtn.file, [Msg.tgtBadPE]⟩ else
  -- Save target's resource directory
  let tgtResourceDir := resourceDataDirectory a tgtNtHeaders
  -- Write source DOS header
  let target := fwrite (fseekSet rtn.file 0) srcDosHeader
  -- Write source NT headers
  let target := fwrite (fseekSet target (e_lfanew srcDosHeader)) srcNtHeaders
  -- Restore target's resource directory
  let target := fwrite
    (fseekSet target (toLong (e_lfanew srcDosHeader + (offsetofResourceDir a : Int))))
    tgtResourceDir
  -- Handle section table if requested
  let st : Outcome × Bool :=
    if copy_sections then
      sectionStep a srcDosHeader srcNtHeaders tgtDosHeader tgtNtHeaders rsn.file target
    else (⟨rsn.file, target, []⟩, true)
  if st.2 = false then st.1 else
  -- Icon verification
  let p := iconProbe a tgtDosHeader tgtNtHeaders tgtResourceDir st.1.target
  ⟨st.1.source, p.2, st.1.out ++ p.1 ++ [Msg.summary copy_sections]⟩

/-! ## Vocabulary of the specification -/

/-- The file position of the NT headers: `e_lfanew` of the DOS header at the start of the image. -/
def lfanew (img : List Nat) : Nat := (e_lfanew img).toNat

/-- A well-formed image: it starts with the `MZ` magic, its `e_lfanew` is non-negative, and the
NT headers at `e_lfanew` are fully readable and carry the `PE` signature. -/
def wellFormed (a : Arch) (img : List Nat) : Prop :=
  e_magic img = IMAGE_DOS_SIGNATURE ∧ 0 ≤ e_lfanew img ∧
    lfanew img + sizeofNtHeaders a ≤ img.length ∧
    Signature (img.drop (lfanew img)) = IMAGE_NT_SIGNATURE

instance (a : Arch) (img : List Nat) : Decidable (wellFormed a img) := by
  unfold wellFormed; infer_instance

/-- Every position of the file fits the `long` that `fseek` takes: the file is smaller than
2 GiB. -/
def longAddressable (img : List Nat) : Prop := img.length < 2147483648

instance (img : List Nat) : Decidable (longAddressable img) := by
  unfold longAddressable; infer_instance

/-- The NT headers of an image, as the program reads them. -/
def ntHeadersOf (a : Arch) (img : List Nat) : List Nat :=
  (img.drop (lfanew img)).take (sizeofNtHeaders a)

/-- The contents of the target after the three header writes of lines 74-93. -/
def headerWritten (a : Arch) (S D : List Nat) : List Nat :=
  writeAt
    (writeAt (writeAt D 0 (S.take sizeofDosHeader)) (lfanew S) (ntHeadersOf a S))
    (lfanew S + offsetofResourceDir a)
    (resourceDataDirectory a (ntHeadersOf a D))

/-! ## Sample images

Small 32-bit images used to exercise the theorems: a DOS header, the NT headers and two section
headers (`.text`, `.rsrc`). -/

/-- A DOS header: `MZ`, filler bytes, and `e_lfanew = lf` (for `lf < 256`). -/
def demoDos (lf fill : Nat) : List Nat := [77, 90] ++ List.replicate 58 fill ++ [lf, 0, 0, 0]

/-- A 32-bit `IMAGE_NT_HEADERS`: `PE\0\0`, machine, `nsec` sections, and the resource
data-directory entry `{va, sz}` (single bytes); every other byte is `fill`. -/
def demoNt32 (nsec va sz fill : Nat) : List Nat :=
  [80, 69, 0, 0, 76, 1, nsec, 0] ++ List.replicate 128 fill ++ [va, 0, 0, 0, sz, 0, 0, 0]
    ++ List.replicate 104 fill

/-- A section header with the given name bytes, padded to 40 bytes with `fill`. -/
def demoSection (name : List Nat) (fill : Nat) : List Nat :=
  name ++ List.replicate (40 - name.length) fill

/-- A source image: headers at 64, sections `.text` and `.rsrc`. -/
def imageA : List Nat :=
  demoDos 64 1 ++ demoNt32 2 0 0 2 ++ demoSection [46, 116, 101, 120, 116] 3
    ++ demoSection [46, 114, 115, 114, 99] 4

/-- A destination image: headers at 64, resource entry `{9, 9}`, sections `.text` and `.rsrc`. -/
def imageB : List Nat :=
  demoDos 64 5 ++ demoNt32 2 9 9 6 ++ demoSection [46, 116, 101, 120, 116] 7
    ++ demoSection [46, 114, 115, 114, 99] 8

/-- The bytes that the write loop of lines 137-153 sends to the target, in order (`rem`
elements remain, starting with element `i`). -/
def emittedBytes (tgtRsrcSection : Option (List Nat)) (srcSections : List Nat) :
    Nat → Nat → List Nat
  | 0, _ => []
  | rem + 1, i =>
    (match tgtRsrcSection with
      | some r =>
        if strncmp (Name (sectionAt srcSections i)) rsrcLiteral 5 = 0 then r
        else sectionAt srcSections i
      | none => sectionAt srcSections i)
      ++ emittedBytes tgtRsrcSection srcSections rem (i + 1)

/-! ## The section-table merge as the specification words it -/

/-- The 8-byte name of a section header begins with the 5 bytes `.rsrc`. -/
def isRsrcName (sec : List Nat) : Prop := (Name sec).take 5 = [46, 114, 115, 114, 99]

instance (sec : List Nat) : Decidable (isRsrcName sec) := by
  unfold isRsrcName; infer_instance

/-- The first entry of a section table whose name begins with `.rsrc`, if any. -/
def firstRsrc (dst : List (List Nat)) : Option (List Nat) :=
  dst.find? (fun s => decide (isRsrcName s))

/-- The reference merge of the specification: one entry per source entry; entry `i` is the
first `.rsrc` entry `r` of the destination table when `r` exists and the name of `src[i]`
begins with `.rsrc`, and is `src[i]` otherwise. -/
def mergeRef (src dst : List (List Nat)) : List (List Nat) :=
  src.map (fun s =>
    match firstRsrc dst with
    | some r => if isRsrcName s then r else s
    | none => s)

/-- The file position of the section table of an image: just past its NT headers. -/
def sectionTableOffset (a : Arch) (img : List Nat) : Nat := lfanew img + sizeofNtHeaders a

/-- The section count an image announces: `FileHeader.NumberOfSections` of its NT headers. -/
def sectionCount (a : Arch) (img : List Nat) : Nat := NumberOfSections (ntHeadersOf a img)

/-- The two section-table reads of lines 103-123 succeed: the source holds its whole section
table, and the target, as it is after the header writes, holds as many section headers as
its original NT headers announced, at its original section-table offset. -/
def sectionsReadable (a : Arch) (S D : List Nat) : Prop :=
  sectionTableOffset a S + sizeofSectionHeader * sectionCount a S ≤ S.length ∧
    sectionTableOffset a D + sizeofSectionHeader * sectionCount a D
      ≤ (headerWritten a S D).length

instance (a : Arch) (S D : List Nat) : Decidable (sectionsReadable a S D) := by
  unfold sectionsReadable; infer_instance

/-- The target's section table as line 118 reads it: from the target as it is after the
header writes, at the target's original offset, with the target's original count. -/
def tgtSectionsRead (a : Arch) (S D : List Nat) : List Nat :=
  ((headerWritten a S D).drop (sectionTableOffset a D)).take
    (sizeofSectionHeader * sectionCount a D)

/-- The source's section table as line 104 reads it. -/
def srcSectionsRead (a : Arch) (S : List Nat) : List Nat :=
  (S.drop (sectionTableOffset a S)).take (sizeofSectionHeader * sectionCount a S)

/-- The contents of the target after the section table has been written (lines 136-153). -/
def sectionsWritten (a : Arch) (S D : List Nat) : List Nat :=
  writeAt (headerWritten a S D) (sectionTableOffset a S)
    (emittedBytes (locateLoop (tgtSectionsRead a S D) (sectionCount a D) 0)
      (srcSectionsRead a S) (sectionCount a S) 0)

/-- The `len` bytes of a file that start at offset `off` (fewer when the file ends early). -/
def bytesAt (img : List Nat) (off len : Nat) : List Nat := (img.drop off).take len

/-- A source image whose NT headers sit at offset 104 (40 bytes later than in `imageD`);
one section, `.rsrc`. -/
def imageC : List Nat :=
  demoDos 104 1 ++ List.replicate 40 0 ++ demoNt32 1 0 0 2
    ++ demoSection [46, 114, 115, 114, 99] 4

/-- A destination image: headers at 64, resource entry `{9, 9}`, one section, `.rsrc`. -/
def imageD : List Nat :=
  demoDos 64 5 ++ demoNt32 1 9 9 6 ++ demoSection [46, 114, 115, 114, 99] 8

/-- The header that iteration `i` of the write loop sends to the target. -/
def emittedEntry (tgtRsrcSection : Option (List Nat)) (srcSections : List Nat) (i : Nat) :
    List Nat :=
  match tgtRsrcSection with
  | some r =>
    if strncmp (Name (sectionAt srcSections i)) rsrcLiteral 5 = 0 then r
    else sectionAt srcSections i
  | none => sectionAt srcSections i

/-- The section table found in a file at offset `off`, as a list of `n` section headers. -/
def sectionTable (img : List Nat) (off n : Nat) : List (List Nat) :=
  (List.range n).map (fun i => sectionAt (img.drop off) i)

/-- A source image whose `e_lfanew` is `-1` (bytes `FF FF FF FF`) and which carries a valid
32-bit `IMAGE_NT_HEADERS` right after its DOS header, at offset 64. -/
def imageE : List Nat :=
  [77, 90] ++ List.replicate 58 1 ++ [255, 255, 255, 255] ++ demoNt32 0 0 0 2

/-- The section table of `imageA` as a list of headers: `.text`, `.rsrc`. -/
def tableA : List (List Nat) :=
  [demoSection [46, 116, 101, 120, 116] 3, demoSection [46, 114, 115, 114, 99] 4]

/-- The section table of `imageB` as a list of headers: `.text`, `.rsrc`. -/
def tableB : List (List Nat) :=
  [demoSection [46, 116, 101, 120, 116] 7, demoSection [46, 114, 115, 114, 99] 8]

/-! ## Vocabulary of the icon probe -/

/-- The file offset at which the probe looks for the resource-directory root: the target's
original `VirtualAddress - ImageBase + e_lfanew`, as the `long` handed to `fseek`. -/
def rootOffset (a : Arch) (D : List Nat) : Int :=
  toLong ((VirtualAddress (resourceDataDirectory a (ntHeadersOf a D)) : Int)
    - (ImageBase a (ntHeadersOf a D) : Int) + e_lfanew D)

/-- The number of root-level entries announced by the `IMAGE_RESOURCE_DIRECTORY` found at
offset `off` of a file. -/
def rootEntryCount (img : List Nat) (off : Nat) : Nat :=
  NumberOfNamedEntries (bytesAt img off sizeofResourceDirectory)
    + NumberOfIdEntries (bytesAt img off sizeofResourceDirectory)

/-- The `i`-th `IMAGE_RESOURCE_DIRECTORY_ENTRY` after the root node at offset `off`. -/
def rootEntry (img : List Nat) (off i : Nat) : List Nat :=
  bytesAt img (off + sizeofResourceDirectory + sizeofResourceDirectoryEntry * i)
    sizeofResourceDirectoryEntry

/-- The probe is reached: always in a header-only run, and with `copy_sections = 1` when both
section tables could be read. -/
def probeReached (a : Arch) (S D : List Nat) (copy_sections : Bool) : Prop :=
  copy_sections = false ∨ sectionsReadable a S D

instance (a : Arch) (S D : List Nat) (cs : Bool) : Decidable (probeReached a S D cs) := by
  unfold probeReached; infer_instance

/-- A destination image with `ImageBase = 0` and resource entry `{250, 1}`: the probe looks
for the root node at offset `250 - 0 + 64 = 314`, where the file holds a resource directory
with one id entry, of id 3. -/
def imageF : List Nat :=
  demoDos 64 0 ++ demoNt32 0 250 1 0 ++ [0, 0]
    ++ [0, 0, 0, 0, 0, 0, 0, 0, 0, 0, 0, 0, 0, 0, 1, 0]
    ++ [3, 0, 0, 0, 0, 0, 0, 0]

/-! ## Vocabulary of the header validation -/

/-- Where the program reads the NT headers of an image: at `e_lfanew`, or, when `e_lfanew` is
negative and the seek fails, where the cursor stands after the DOS header was read. -/
def ntReadOffset (img : List Nat) : Nat :=
  if 0 ≤ e_lfanew img then lfanew img else sizeofDosHeader

/-- The validation of lines 25-69 lets an image pass: the DOS header can be read and starts
with `MZ`, and the NT headers can be read at `ntReadOffset` and start with `PE\0\0`. -/
def accepted (a : Arch) (img : List Nat) : Prop :=
  sizeofDosHeader ≤ img.length ∧ e_magic img = IMAGE_DOS_SIGNATURE ∧
    ntReadOffset img + sizeofNtHeaders a ≤ img.length ∧
    Signature (img.drop (ntReadOffset img)) = IMAGE_NT_SIGNATURE

instance (a : Arch) (img : List Nat) : Decidable (accepted a img) := by
  unfold accepted; infer_instance

/-! ## Section payloads -/

/-- Field `SizeOfRawData` of an `IMAGE_SECTION_HEADER`. -/
def SizeOfRawData (sec : List Nat) : Nat := le32 sec 16

/-- Field `PointerToRawData` of an `IMAGE_SECTION_HEADER`. -/
def PointerToRawData (sec : List Nat) : Nat := le32 sec 20

/-- Header `k` of the section table an image holds right after its NT headers. -/
def sectionHeaderOf (a : Arch) (img : List Nat) (k : Nat) : List Nat :=
  sectionAt (img.drop (sectionTableOffset a img)) k

/-- The end of the region the run writes: the end of the source's NT headers, or, with
`copy_sections = 1`, the end of the new section table. -/
def writtenEnd (a : Arch) (S : List Nat) (copy_sections : Bool) : Nat :=
  sectionTableOffset a S + (if copy_sections then sizeofSectionHeader * sectionCount a S else 0)

/-- A source image whose NT headers sit at offset 120; no section. -/
def imageG : List Nat :=
  demoDos 120 1 ++ List.replicate 56 0 ++ demoNt32 0 0 0 2

/-- A destination image: headers at 64, one section `.rsrc` whose 8 bytes of raw data (all
`170`) follow the section table, at offset 352 (`PointerToRawData = 352`,
`SizeOfRawData = 8`). -/
def imageH : List Nat :=
  demoDos 64 5 ++ demoNt32 1 9 9 6
    ++ ([46, 114, 115, 114, 99, 0, 0, 0] ++ [8, 0, 0, 0] ++ [0, 16, 0, 0] ++ [8, 0, 0, 0]
        ++ [96, 1, 0, 0] ++ List.replicate 16 0)
    ++ List.replicate 8 170

end PEtransfer

/-!
# file_sort: the ordering of the collected files

A shallow embedding of the sorting step of `src/file_sort.c` (lines 140-163, 179-200 and
240-249).

* A C string is the list of its bytes before the terminating NUL.
* The field `size_mb` is the `double` `st.st_size / 1048576.0`.  The division by a power of two
  is exact for every size below 2^53 bytes, so the field is held as the integer `st_size`
  (the size in units of 2^-20 MB): the order of the two is the same.
* The C library's `qsort` is not part of the repository; it is taken to be an insertion sort
  driven by the comparison function.  On the inputs evaluated below every permutation that the
  comparison function accepts as sorted is the same list.
-/

namespace FileSort

/-- The C library `strcmp` on two strings, comparing bytes as `unsigned char`. -/
def strcmp : List Nat → List Nat → Int
  | [], [] => 0
  | [], b :: _ => -(b : Int)
  | a :: _, [] => (a : Int)
  | a :: s1, b :: s2 => if a ≠ b then (a : Int) - (b : Int) else strcmp s1 s2

/-- The record `FileInfo` of lines 21-28. -/
structure FileInfo where
  date : List Nat
  size_mb : Nat
  filename : List Nat
  extension : List Nat
  rel_path : List Nat
  abs_path : List Nat
deriving DecidableEq, Repr

/-- The function `compare_by_date_desc` of line 141. -/
def compare_by_date_desc (a b : FileInfo) : Int := strcmp b.date a.date

/-- The function `compare_by_date_asc` of line 145. -/
def compare_by_date_asc (a b : FileInfo) : Int := strcmp a.date b.date

/-- The function `compare_by_filename_desc` of line 149. -/
def compare_by_filename_desc (a b : FileInfo) : Int := strcmp b.filename a.filename

/-- The function `compare_by_filename_asc` of line 153. -/
def compare_by_filename_asc (a b : FileInfo) : Int := strcmp a.filename b.filename

/-- The function `compare_by_size_desc` of line 157. -/
def compare_by_size_desc (a b : FileInfo) : Int := if b.size_mb > a.size_mb then 1 else -1

/-- The function `compare_by_size_asc` of line 161. -/
def compare_by_size_asc (a b : FileInfo) : Int := if a.size_mb > b.size_mb then 1 else -1

/-- One insertion step of the sort: `x` goes before the first element it does not compare
greater than. -/
def insertBy (cmp : FileInfo → FileInfo → Int) (x : FileInfo) : List FileInfo → List FileInfo
  | [] => [x]
  | y :: ys => if cmp x y ≤ 0 then x :: y :: ys else y :: insertBy cmp x ys

/-- The C library `qsort`, as an insertion sort driven by the comparison function. -/
def qsort (cmp : FileInfo → FileInfo → Int) (files : List FileInfo) : List FileInfo :=
  files.foldr (insertBy cmp) []

/-- The string literal `"date"`. -/
def str_date : List Nat := [100, 97, 116, 101]

/-- The string literal `"filename"`. -/
def str_filename : List Nat := [102, 105, 108, 101, 110, 97, 109, 101]

/-- The string literal `"size"`. -/
def str_size : List Nat := [115, 105, 122, 101]

/-- The string literal `"asc"`. -/
def str_asc : List Nat := [97, 115, 99]

/-- The string literal `"desc"`. -/
def str_desc : List Nat := [100, 101, 115, 99]

/-- The string literal `"-v"`. -/
def str_v : List Nat := [45, 118]

/-- The string literal `"--verbose"`. -/
def str_verbose : List Nat := [45, 45, 118, 101, 114, 98, 111, 115, 101]

/-- The string literal `"--sort-by"`. -/
def str_sort_by : List Nat := [45, 45, 115, 111, 114, 116, 45, 98, 121]

/-- The string literal `"--sort-order"`. -/
def str_sort_order : List Nat := [45, 45, 115, 111, 114, 116, 45, 111, 114, 100, 101, 114]

/-- The options `main` keeps in local variables (lines 178-180). -/
structure Options where
  verbose : Bool
  sort_by : List Nat
  sort_order : List Nat
deriving DecidableEq, Repr

/-- The defaults of lines 178-180: not verbose, sort by `"size"`, order `"desc"`. -/
def defaultOptions : Options :=
  { verbose := false, sort_by := str_size, sort_order := str_desc }

/-- The option loop of lines 182-200 over `argv[3..]`; `none` is the `return 1` after an error
message. -/
def parseOptions : List (List Nat) → Options → Option Options
  | [], o => some o
  | x :: rest, o =>
    if strcmp x str_v = 0 ∨ strcmp x str_verbose = 0 then
      parseOptions rest { o with verbose := true }
    else if strcmp x str_sort_by = 0 ∧ rest ≠ [] then
      match rest with
      | [] => some o
      | y :: rest' =>
        if strcmp y str_date = 0 ∨ strcmp y str_filename = 0 ∨ strcmp y str_size = 0 then
          parseOptions rest' { o with sort_by := y }
        else none
    else if strcmp x str_sort_order = 0 ∧ rest ≠ [] then
      match rest with
      | [] => some o
      | y :: rest' =>
        if strcmp y str_asc = 0 ∨ strcmp y str_desc = 0 then
          parseOptions rest' { o with sort_order := y }
        else none
    else parseOptions rest o

/-- The sorting step of lines 240-249 on the array of collected files. -/
def sortFiles (sort_by sort_order : List Nat) (files : List FileInfo) : List FileInfo :=
  if files.length > 0 then
    if strcmp sort_by str_date = 0 then
      qsort (if strcmp sort_order str_desc ≠ 0 then compare_by_date_desc
        else compare_by_date_asc) files
    else if strcmp sort_by str_filename = 0 then
      qsort (if strcmp sort_order str_desc ≠ 0 then compare_by_filename_desc
        else compare_by_filename_asc) files
    else
      qsort (if strcmp sort_order str_desc ≠ 0 then compare_by_size_desc
        else compare_by_size_asc) files
  else files

/-- The part of `main` that decides the order of the `files` array: the options are read from
`argv[3..]` and the collected files are sorted; `none` is the `return 1` of the option loop. -/
def sortedFiles (args : List (List Nat)) (collected : List FileInfo) :
    Option (List FileInfo) :=
  match parseOptions args defaultOptions with
  | none => none
  | some o => some (sortFiles o.sort_by o.sort_order collected)

/-- A collected file of 2 MiB, named `a`, dated `2024-01-01`. -/
def fileSmall : FileInfo :=
  { date := [50, 48, 50, 52, 45, 48, 49, 45, 48, 49], size_mb := 2097152, filename := [97],
    extension := [], rel_path := [97], abs_path := [47, 97] }

/-- A collected file of 3 MiB, named `b`, dated `2024-01-02`. -/
def fileLarge : FileInfo :=
  { date := [50, 48, 50, 52, 45, 48, 49, 45, 48, 50], size_mb := 3145728, filename := [98],
    extension := [], rel_path := [98], abs_path := [47, 98] }

end FileSort

/-!
# replace: substitution inside a buffer

A shallow embedding of `replace_in_buffer` of `src/replace.c` (lines 33-54).

* The memory that `buffer` points to is the list of the bytes of its allocation; a pointer into
  it is an offset.  `search` and `replace` are C strings, held as the list of their bytes before
  the terminating NUL.
* The C library functions are fallible: reading a string that is not NUL-terminated inside the
  allocation, or copying outside the allocation, is undefined behaviour and gives `none`.
* `replacements` is an `int`; incrementing it beyond `INT_MAX` is undefined behaviour and
  gives `none`.
* The `fprintf` of lines 49-51 writes to another stream and is left out.
-/

namespace Replace

/-- The largest value of an `int`. -/
def INT_MAX : Nat := 2147483647

/-- The C string that starts at offset `p` of the memory, if it is terminated inside it. -/
def cstring (mem : List Nat) (p : Nat) : Option (List Nat) :=
  if 0 ∈ mem.drop p then some ((mem.drop p).takeWhile (fun c => c != 0)) else none

/-- The C library `strlen` at offset `p`. -/
def strlen (mem : List Nat) (p : Nat) : Option Nat :=
  (cstring mem p).map List.length

/-- The offset of the first occurrence of `needle` in `hay`, if there is one. -/
def findSub (needle : List Nat) : List Nat → Option Nat
  | [] => if needle = [] then some 0 else none
  | c :: t =>
    if (c :: t).take needle.length = needle then some 0
    else (findSub needle t).map (fun k => k + 1)

/-- The C library `strstr` at offset `p`: the outer `Option` is the undefined behaviour of an
unterminated string, the inner one is the `NULL` result. -/
def strstr (mem : List Nat) (p : Nat) (needle : List Nat) : Option (Option Nat) :=
  (cstring mem p).map (fun hay => (findSub needle hay).map (fun k => p + k))

/-- The C library `memcpy` of the bytes `bytes` to offset `dst`. -/
def memcpy (mem : List Nat) (dst : Nat) (bytes : List Nat) : Option (List Nat) :=
  if dst + bytes.length ≤ mem.length then
    some (mem.take dst ++ bytes ++ mem.drop (dst + bytes.length))
  else none

/-- The C library `memmove` of `n` bytes from offset `src` to offset `dst`. -/
def memmove (mem : List Nat) (dst src n : Nat) : Option (List Nat) :=
  if src + n ≤ mem.length then memcpy mem dst ((mem.drop src).take n) else none

/-- The `while` loop of lines 40-52, with the local variables `pos` and `replacements`; the
first argument bounds the number of iterations. -/
def replaceLoop (buffer_size : Nat) (search replace : List Nat) :
    Nat → List Nat → Nat → Nat → Option (List Nat × Nat)
  | 0, _, _, _ => none
  | fuel + 1, buffer, pos, replacements =>
    match strstr buffer pos search with
    | none => none
    | some none => some (buffer, replacements)
    | some (some pos1) =>
      match strlen buffer (pos1 + search.length) with
      | none => none
      | some tail_len =>
        if pos1 + replace.length + tail_len ≥ buffer_size then some (buffer, replacements)
        else
          match memmove buffer (pos1 + replace.length) (pos1 + search.length) (tail_len + 1) with
          | none => none
          | some buffer1 =>
            match memcpy buffer1 pos1 replace with
            | none => none
            | some buffer2 =>
              if replacements + 1 ≤ INT_MAX then
                replaceLoop buffer_size search replace fuel buffer2 (pos1 + replace.length)
                  (replacements + 1)
              else none

/-- The function `replace_in_buffer` of lines 33-54: the final memory and the returned count.
Every iteration with a non-empty `search` shortens the part of the string that is still to be
scanned, so the length of the memory bounds the number of iterations. -/
def replace_in_buffer (buffer : List Nat) (buffer_size : Nat) (search replace : List Nat) :
    Option (List Nat × Nat) :=
  replaceLoop buffer_size search replace (buffer.length + 1) buffer 0 0

/-- Reference: the string obtained by substituting, left to right, every non-overlapping
occurrence of `search` with `replace`; the second argument counts the bytes of a substituted
occurrence that are still to be passed over. -/
def substituteFrom (search replace : List Nat) : List Nat → Nat → List Nat
  | [], _ => []
  | _ :: t, skip + 1 => substituteFrom search replace t skip
  | c :: t, 0 =>
    if (c :: t).take search.length = search then
      replace ++ substituteFrom search replace t (search.length - 1)
    else c :: substituteFrom search replace t 0

/-- Reference: the number of occurrences that `substituteFrom` substitutes. -/
def countFrom (search : List Nat) : List Nat → Nat → Nat
  | [], _ => 0
  | _ :: t, skip + 1 => countFrom search t skip
  | c :: t, 0 =>
    if (c :: t).take search.length = search then 1 + countFrom search t (search.length - 1)
    else countFrom search t 0

/-- Reference: the string obtained by substituting only the first `budget` non-overlapping
occurrences of `search`, left to right; the last argument counts the bytes of a substituted
occurrence that are still to be passed over. -/
def substituteFirstFrom (search replace : List Nat) : Nat → List Nat → Nat → List Nat
  | _, [], _ => []
  | budget, _ :: t, skip + 1 => substituteFirstFrom search replace budget t skip
  | 0, c :: t, 0 => c :: t
  | budget + 1, c :: t, 0 =>
    if (c :: t).take search.length = search then
      replace ++ substituteFirstFrom search replace budget t (search.length - 1)
    else c :: substituteFirstFrom search replace (budget + 1) t 0

/-- Reference: the intermediate result after `i` substitutions. -/
def substituteFirst (search replace : List Nat) (i : Nat) (s : List Nat) : List Nat :=
  substituteFirstFrom search replace i s 0

/-- Reference: substitution of every non-overlapping occurrence, left to right. -/
def substituteAll (search replace s : List Nat) : List Nat := substituteFrom search replace s 0

/-- Reference: the number of non-overlapping occurrences, counted left to right. -/
def countOccurrences (search s : List Nat) : Nat := countFrom search s 0

end Replace

/-! # Proofs -/

set_option maxRecDepth 100000

namespace PEtransfer

open List

/-! ## The stdio model -/

theorem length_writeAt (d bs : List Nat) (p : Nat) :
    (writeAt d p bs).length = if bs.length = 0 then d.length else max d.length (p + bs.length) := by
  unfold writeAt
  split
  · rfl
  · simp only [length_append, length_take, length_replicate, length_drop]
    omega

theorem getElem?_writeAt (d bs : List Nat) (p i : Nat) :
    (writeAt d p bs)[i]? =
      if p ≤ i ∧ i < p + bs.length then bs[i - p]?
      else if i < d.length then d[i]?
      else if i < p ∧ bs.length ≠ 0 then some 0 else none := by
  unfold writeAt
  by_cases hb : bs.length = 0
  · have h0 : ¬ (p ≤ i ∧ i < p + bs.length) := by omega
    have h1 : ¬ (i < p ∧ bs.length ≠ 0) := by omega
    rw [if_pos hb, if_neg h0, if_neg h1]
    by_cases h2 : i < d.length
    · rw [if_pos h2]
    · rw [if_neg h2]; exact getElem?_eq_none (by omega)
  · rw [if_neg hb]
    have hA : (d.take p ++ replicate (p - d.length) 0).length = p := by
      simp only [length_append, length_take, length_replicate]; omega
    by_cases h1 : i < p
    · have h0 : ¬ (p ≤ i ∧ i < p + bs.length) := by omega
      rw [if_neg h0, append_assoc, getElem?_append_left (by omega),
        getElem?_append]
      by_cases h2 : i < d.length
      · rw [if_pos h2, if_pos (by simp only [length_take]; omega), getElem?_take_of_lt h1]
      · rw [if_neg h2, if_neg (by simp only [length_take]; omega), if_pos ⟨h1, hb⟩,
          getElem?_replicate, if_pos (by simp only [length_take]; omega)]
    · by_cases h2 : i < p + bs.length
      · rw [if_pos ⟨by omega, h2⟩, getElem?_append_left (by simp only [length_append, hA]; omega),
          getElem?_append_right (by omega), hA]
      · have h0 : ¬ (p ≤ i ∧ i < p + bs.length) := by omega
        have h3 : ¬ (i < p ∧ bs.length ≠ 0) := by omega
        rw [if_neg h0, if_neg h3, getElem?_append_right (by simp only [length_append, hA]; omega),
          getElem?_drop]
        have : p + bs.length + (i - (d.take p ++ replicate (p - d.length) 0 ++ bs).length) = i := by
          simp only [length_append, hA]; omega
        rw [this]
        by_cases h4 : i < d.length
        · rw [if_pos h4]
        · rw [if_neg h4]; exact getElem?_eq_none (by omega)

theorem fread_one (f : FILE) (size : Nat) (h : f.pos + size ≤ f.data.length) (hsz : 0 < size) :
    fread f size 1 = { buf := (f.data.drop f.pos).take size, items := 1,
                       file := { data := f.data, pos := f.pos + size, freads := f.freads + 1 } } := by
  have hl : ((f.data.drop f.pos).take (size * 1)).length = size := by
    simp only [Nat.mul_one, length_take, length_drop]; omega
  unfold fread
  rw [hl, Nat.div_self hsz, Nat.mul_one]

theorem fread_one_items (f : FILE) (size : Nat) (hsz : 0 < size) :
    (fread f size 1).items = 1 ↔ f.pos + size ≤ f.data.length := by
  simp only [fread, length_take, length_drop, Nat.mul_one]
  constructor
  · intro h
    by_contra hc
    have h1 : min size (f.data.length - f.pos) = f.data.length - f.pos := by omega
    rw [h1] at h
    have h3 := (Nat.div_lt_iff_lt_mul hsz).mpr
      (show f.data.length - f.pos < 1 * size by omega)
    omega
  · intro h
    have h1 : min size (f.data.length - f.pos) = size := by omega
    rw [h1, Nat.div_self hsz]

theorem fread_one_buf (f : FILE) (size : Nat) :
    (fread f size 1).buf = bytesAt f.data f.pos size := by
  simp only [fread, bytesAt, Nat.mul_one]

theorem fread_one_file (f : FILE) (size : Nat) (h : f.pos + size ≤ f.data.length) :
    (fread f size 1).file = ⟨f.data, f.pos + size, f.freads + 1⟩ := by
  simp only [fread, length_take, length_drop, Nat.mul_one]
  have h1 : min size (f.data.length - f.pos) = size := by omega
  rw [h1]

theorem toLong_of_range (x : Int) (h0 : 0 ≤ x) (h1 : x < 2147483648) : toLong x = x := by
  unfold toLong; omega

theorem e_lfanew_range (d : List Nat) : -2147483648 ≤ e_lfanew d ∧ e_lfanew d < 2147483648 := by
  unfold e_lfanew toLong; omega

theorem getD_take_of_lt (d : List Nat) (n i : Nat) (h : i < n) : (d.take n).getD i 0 = d.getD i 0 := by
  simp only [getD_eq_getElem?_getD, getElem?_take_of_lt h]

theorem e_magic_take (d : List Nat) : e_magic (d.take sizeofDosHeader) = e_magic d := by
  simp only [e_magic, le16, sizeofDosHeader]
  rw [getD_take_of_lt _ _ _ (by omega), getD_take_of_lt _ _ _ (by omega)]

theorem e_lfanew_take (d : List Nat) : e_lfanew (d.take sizeofDosHeader) = e_lfanew d := by
  simp only [e_lfanew, le32, sizeofDosHeader]
  rw [getD_take_of_lt _ _ _ (by omega), getD_take_of_lt _ _ _ (by omega),
    getD_take_of_lt _ _ _ (by omega), getD_take_of_lt _ _ _ (by omega)]

theorem sizeofNtHeaders_ge (a : Arch) : 248 ≤ sizeofNtHeaders a := by
  cases a <;> simp [sizeofNtHeaders]

theorem offsetofResourceDir_le (a : Arch) :
    136 ≤ offsetofResourceDir a ∧ offsetofResourceDir a + 8 ≤ sizeofNtHeaders a := by
  cases a <;> simp [sizeofNtHeaders, offsetofResourceDir]

theorem Signature_take (a : Arch) (d : List Nat) :
    Signature (d.take (sizeofNtHeaders a)) = Signature d := by
  have := sizeofNtHeaders_ge a
  simp only [Signature, le32]
  rw [getD_take_of_lt _ _ _ (by omega), getD_take_of_lt _ _ _ (by omega),
    getD_take_of_lt _ _ _ (by omega), getD_take_of_lt _ _ _ (by omega)]


theorem fread_dos (X : List Nat) (h : 64 ≤ X.length) :
    fread (fopen X) sizeofDosHeader 1
      = ⟨X.take sizeofDosHeader, 1, ⟨X, sizeofDosHeader, 1⟩⟩ := by
  have h' : (fopen X).pos + sizeofDosHeader ≤ (fopen X).data.length := by
    simp only [fopen, sizeofDosHeader]; omega
  rw [fread_one (fopen X) sizeofDosHeader h' (by simp only [sizeofDosHeader]; omega)]
  simp only [fopen, drop_zero, Nat.zero_add]

theorem fseekSet_lfanew (X Y : List Nat) (n k : Nat) (h : 0 ≤ e_lfanew X) :
    fseekSet ⟨Y, n, k⟩ (e_lfanew X) = ⟨Y, lfanew X, k⟩ := by
  simp only [fseekSet, lfanew, if_neg (not_lt.mpr h)]

theorem fread_nt (a : Arch) (X : List Nat) (k : Nat) (h : lfanew X + sizeofNtHeaders a ≤ X.length) :
    fread ⟨X, lfanew X, k⟩ (sizeofNtHeaders a) 1
      = ⟨ntHeadersOf a X, 1, ⟨X, lfanew X + sizeofNtHeaders a, k + 1⟩⟩ := by
  have hnt := sizeofNtHeaders_ge a
  rw [fread_one ⟨X, lfanew X, k⟩ (sizeofNtHeaders a) h (by omega)]
  simp only [ntHeadersOf]

theorem lfanew_cast (X : List Nat) (h : 0 ≤ e_lfanew X) : (lfanew X : Int) = e_lfanew X := by
  simp only [lfanew]; omega

theorem toLong_lfanew_add (X : List Nat) (k n : Nat) (h : 0 ≤ e_lfanew X)
    (hk : lfanew X + k ≤ n) (hn : n < 2147483648) :
    toLong (e_lfanew X + (k : Int)) = ((lfanew X + k : Nat) : Int) := by
  have := lfanew_cast X h
  rw [toLong_of_range]
  · push_cast; omega
  · omega
  · omega

theorem length_ntHeadersOf (a : Arch) (X : List Nat) (h : lfanew X + sizeofNtHeaders a ≤ X.length) :
    (ntHeadersOf a X).length = sizeofNtHeaders a := by
  simp only [ntHeadersOf, length_take, length_drop]; omega

theorem Signature_ntHeadersOf (a : Arch) (X : List Nat) :
    Signature (ntHeadersOf a X) = Signature (X.drop (lfanew X)) := by
  rw [ntHeadersOf, Signature_take]


theorem fseekSet_natCast (f : FILE) (n : Nat) :
    fseekSet f (n : Int) = { data := f.data, pos := n, freads := f.freads } := by
  simp only [fseekSet, Int.toNat_ofNat, if_neg (not_lt.mpr (Int.natCast_nonneg n))]

theorem fseekSet_zero (f : FILE) :
    fseekSet f 0 = { data := f.data, pos := 0, freads := f.freads } :=
  fseekSet_natCast f 0

/-- The target stream after the three header writes. -/
theorem header_writes (a : Arch) (S D : List Nat) (p k : Nat) (hS2 : 0 ≤ e_lfanew S)
    (hD3 : lfanew D + sizeofNtHeaders a ≤ D.length) :
    fwrite
      (fseekSet
        (fwrite (fseekSet (fwrite (fseekSet ⟨D, p, k⟩ 0) (S.take sizeofDosHeader)) (e_lfanew S))
          (ntHeadersOf a S))
        ((lfanew S + offsetofResourceDir a : Nat) : Int))
      (resourceDataDirectory a (ntHeadersOf a D))
    = ⟨headerWritten a S D, lfanew S + offsetofResourceDir a + sizeofDataDirectory, k⟩ := by
  have hro := offsetofResourceDir_le a
  have l3 : (resourceDataDirectory a (ntHeadersOf a D)).length = sizeofDataDirectory := by
    simp only [resourceDataDirectory, length_take, length_drop, length_ntHeadersOf a D hD3,
      sizeofDataDirectory]
    omega
  rw [← lfanew_cast S hS2]
  simp only [fseekSet_natCast, fseekSet_zero, fwrite, headerWritten, l3]
/-- What the run does on a well-formed pair, up to the end of the header writes. -/
theorem copy_of_wellFormed (a : Arch) (S D : List Nat) (cs : Bool)
    (hS : wellFormed a S) (hD : wellFormed a D) (hSl : longAddressable S) :
    copy_pe_header_with_resources a S D cs =
      (let source : FILE := ⟨S, lfanew S + sizeofNtHeaders a, 2⟩
       let target : FILE :=
         ⟨headerWritten a S D, lfanew S + offsetofResourceDir a + sizeofDataDirectory, 2⟩
       let st : Outcome × Bool :=
         if cs then
           sectionStep a (S.take sizeofDosHeader) (ntHeadersOf a S) (D.take sizeofDosHeader)
             (ntHeadersOf a D) source target
         else (⟨source, target, []⟩, true)
       if st.2 = false then st.1 else
       let p := iconProbe a (D.take sizeofDosHeader) (ntHeadersOf a D)
         (resourceDataDirectory a (ntHeadersOf a D)) st.1.target
       ⟨st.1.source, p.2, st.1.out ++ p.1 ++ [Msg.summary cs]⟩) := by
  obtain ⟨hS1, hS2, hS3, hS4⟩ := hS
  obtain ⟨hD1, hD2, hD3, hD4⟩ := hD
  have hnt := sizeofNtHeaders_ge a
  have hro := offsetofResourceDir_le a
  have w3 := toLong_lfanew_add S (offsetofResourceDir a) S.length hS2 (by omega) hSl
  simp only [copy_pe_header_with_resources, fread_dos S (by omega), fread_dos D (by omega),
    e_magic_take, e_lfanew_take, hS1, hD1, ne_eq, not_true_eq_false, if_false,
    fseekSet_lfanew S S _ _ hS2, fseekSet_lfanew D D _ _ hD2, fread_nt a S 1 hS3,
    fread_nt a D 1 hD3, Signature_ntHeadersOf, hS4, hD4, w3, header_writes a S D _ _ hS2 hD3, Nat.reduceAdd]

theorem fread_data (f : FILE) (s c : Nat) : (fread f s c).file.data = f.data := rfl

theorem fseekSet_data (f : FILE) (o : Int) : (fseekSet f o).data = f.data := by
  unfold fseekSet; split <;> rfl

theorem fseekCur_data (f : FILE) (o : Int) : (fseekCur f o).data = f.data := by
  unfold fseekCur; split <;> rfl

theorem iconLoop_data (n : Nat) (f : FILE) : (iconLoop n f).2.data = f.data := by
  induction n generalizing f with
  | zero => rfl
  | succ n ih =>
    unfold iconLoop
    split
    · rfl
    · split
      · rfl
      · rw [ih]; rfl

theorem iconProbe_data (a : Arch) (dos nt rd : List Nat) (f : FILE) :
    (iconProbe a dos nt rd f).2.data = f.data := by
  unfold iconProbe
  split
  · simp only []
    split
    · rw [iconLoop_data, fseekCur_data, fseekCur_data, fread_data, fseekSet_data]
    · rw [fread_data, fseekSet_data]
  · rfl

/-- The contents of the target after a header-only run on a well-formed pair. -/
theorem header_only_data (a : Arch) (S D : List Nat) (hS : wellFormed a S) (hD : wellFormed a D)
    (hSl : longAddressable S) :
    (copy_pe_header_with_resources a S D false).target.data = headerWritten a S D := by
  rw [copy_of_wellFormed a S D false hS hD hSl]
  simp only [Bool.false_eq_true, if_false, Bool.true_eq_false, iconProbe_data]


theorem getElem?_ntHeadersOf (a : Arch) (X : List Nat) (j : Nat) (h : j < sizeofNtHeaders a) :
    (ntHeadersOf a X)[j]? = X[lfanew X + j]? := by
  rw [ntHeadersOf, getElem?_take_of_lt h, getElem?_drop]

theorem getElem?_resourceDataDirectory (a : Arch) (X : List Nat) (j : Nat)
    (h : j < sizeofDataDirectory) :
    (resourceDataDirectory a (ntHeadersOf a X))[j]? = X[lfanew X + offsetofResourceDir a + j]? := by
  have hro := offsetofResourceDir_le a
  rw [resourceDataDirectory, getElem?_take_of_lt h, getElem?_drop,
    getElem?_ntHeadersOf a X _ (by simp only [sizeofDataDirectory] at h; omega), Nat.add_assoc]

theorem length_resourceDataDirectory (a : Arch) (X : List Nat)
    (h : lfanew X + sizeofNtHeaders a ≤ X.length) :
    (resourceDataDirectory a (ntHeadersOf a X)).length = sizeofDataDirectory := by
  have hro := offsetofResourceDir_le a
  simp only [resourceDataDirectory, length_take, length_drop, length_ntHeadersOf a X h,
    sizeofDataDirectory]
  omega

theorem getElem?_writeAt_in (d bs : List Nat) (p i : Nat) (h : p ≤ i ∧ i < p + bs.length) :
    (writeAt d p bs)[i]? = bs[i - p]? := by
  rw [getElem?_writeAt, if_pos h]

theorem getElem?_writeAt_out (d bs : List Nat) (p i : Nat) (h : ¬ (p ≤ i ∧ i < p + bs.length))
    (hl : i < d.length) : (writeAt d p bs)[i]? = d[i]? := by
  rw [getElem?_writeAt, if_neg h, if_pos hl]

theorem getElem?_writeAt_beyond (d bs : List Nat) (p i : Nat)
    (h : ¬ (p ≤ i ∧ i < p + bs.length)) (hl : d.length ≤ i) :
    (writeAt d p bs)[i]? = if i < p ∧ bs.length ≠ 0 then some 0 else none := by
  rw [getElem?_writeAt, if_neg h, if_neg (by omega)]

theorem length_writeAt_of_pos (d bs : List Nat) (p : Nat) (h : 0 < bs.length) :
    (writeAt d p bs).length = max d.length (p + bs.length) := by
  rw [length_writeAt, if_neg (by omega)]

/-- Every byte of the target after the three header writes. -/
theorem getElem?_headerWritten (a : Arch) (S D : List Nat) (i : Nat)
    (hS3 : lfanew S + sizeofNtHeaders a ≤ S.length)
    (hD3 : lfanew D + sizeofNtHeaders a ≤ D.length) :
    (headerWritten a S D)[i]? =
      if lfanew S + offsetofResourceDir a ≤ i
          ∧ i < lfanew S + offsetofResourceDir a + sizeofDataDirectory then
        D[lfanew D + offsetofResourceDir a + (i - (lfanew S + offsetofResourceDir a))]?
      else if lfanew S ≤ i ∧ i < lfanew S + sizeofNtHeaders a then S[i]?
      else if i < sizeofDosHeader then S[i]?
      else if i < D.length then D[i]?
      else if i < lfanew S then some 0 else none := by
  have hnt := sizeofNtHeaders_ge a
  have hro := offsetofResourceDir_le a
  have hd : sizeofDosHeader = 64 := rfl
  have hdd : sizeofDataDirectory = 8 := rfl
  have l1 : (S.take sizeofDosHeader).length = sizeofDosHeader := by
    simp only [length_take]; omega
  have l2 := length_ntHeadersOf a S hS3
  have l3 := length_resourceDataDirectory a D hD3
  have m0 : (writeAt D 0 (S.take sizeofDosHeader)).length = D.length := by
    rw [length_writeAt_of_pos _ _ _ (by omega), l1]; omega
  have m1 : (writeAt (writeAt D 0 (S.take sizeofDosHeader)) (lfanew S) (ntHeadersOf a S)).length
      = max D.length (lfanew S + sizeofNtHeaders a) := by
    rw [length_writeAt_of_pos _ _ _ (by omega), m0, l2]
  unfold headerWritten
  by_cases h1 : lfanew S + offsetofResourceDir a ≤ i
      ∧ i < lfanew S + offsetofResourceDir a + sizeofDataDirectory
  · rw [if_pos h1, getElem?_writeAt_in _ _ _ _ (by rw [l3]; exact h1)]
    exact getElem?_resourceDataDirectory a D _ (by omega)
  · rw [if_neg h1]
    by_cases h2 : lfanew S ≤ i ∧ i < lfanew S + sizeofNtHeaders a
    · rw [if_pos h2, getElem?_writeAt_out _ _ _ _ (by rw [l3]; exact h1) (by rw [m1]; omega),
        getElem?_writeAt_in _ _ _ _ (by rw [l2]; exact h2), getElem?_ntHeadersOf a S _ (by omega)]
      congr 1; omega
    · rw [if_neg h2]
      by_cases h5 : i < D.length
      · rw [getElem?_writeAt_out _ _ _ _ (by rw [l3]; exact h1) (by rw [m1]; omega),
          getElem?_writeAt_out _ _ _ _ (by rw [l2]; exact h2) (by rw [m0]; omega)]
        by_cases h3 : i < sizeofDosHeader
        · rw [if_pos h3, getElem?_writeAt_in _ _ _ _ (by rw [l1]; omega),
            getElem?_take_of_lt (by omega)]
          rfl
        · rw [if_neg h3, if_pos h5, getElem?_writeAt_out _ _ _ _ (by rw [l1]; omega) h5]
      · rw [if_neg (by omega), if_neg h5]
        by_cases h6 : i < lfanew S
        · rw [if_pos h6, getElem?_writeAt_out _ _ _ _ (by rw [l3]; exact h1) (by rw [m1]; omega),
            getElem?_writeAt_beyond _ _ _ _ (by rw [l2]; exact h2) (by rw [m0]; omega),
            if_pos ⟨h6, by omega⟩]
        · rw [if_neg h6, getElem?_writeAt_beyond _ _ _ _ (by rw [l3]; exact h1)
            (by rw [m1]; omega), if_neg (by omega)]

/-! ## C1: a header-only run copies the DOS header and the NT headers -/

/-- C1: for well-formed images `S` and `D`, after `copy_pe_header_with_resources S D 0` the
target agrees with `S` on the bytes `[0, sizeof(IMAGE_DOS_HEADER))` and on the bytes
`[S.e_lfanew, S.e_lfanew + sizeof(IMAGE_NT_HEADERS))`, except for the 8 bytes of the resource
data-directory entry. -/
theorem header_only_copies_source_headers (a : Arch) (S D : List Nat)
    (hS : wellFormed a S) (hD : wellFormed a D) (hSl : longAddressable S) :
    (∀ i, i < sizeofDosHeader →
      (copy_pe_header_with_resources a S D false).target.data[i]? = S[i]?) ∧
    (∀ i, lfanew S ≤ i → i < lfanew S + sizeofNtHeaders a →
      ¬ (lfanew S + offsetofResourceDir a ≤ i
          ∧ i < lfanew S + offsetofResourceDir a + sizeofDataDirectory) →
      (copy_pe_header_with_resources a S D false).target.data[i]? = S[i]?) := by
  have hro := offsetofResourceDir_le a
  have hd : sizeofDosHeader = 64 := rfl
  have hdd : sizeofDataDirectory = 8 := rfl
  rw [header_only_data a S D hS hD hSl]
  refine ⟨fun i hi => ?_, fun i h1 h2 h3 => ?_⟩
  · rw [getElem?_headerWritten a S D i hS.2.2.1 hD.2.2.1, if_neg (by omega)]
    by_cases h : lfanew S ≤ i ∧ i < lfanew S + sizeofNtHeaders a
    · rw [if_pos h]
    · rw [if_neg h, if_pos hi]
  · rw [getElem?_headerWritten a S D i hS.2.2.1 hD.2.2.1, if_neg h3, if_pos ⟨h1, h2⟩]

/-- C1 at the sample images `imageA` (source) and `imageB` (target). -/
theorem header_only_copies_source_headers_witness :
    wellFormed .x86 imageA ∧ wellFormed .x86 imageB ∧ longAddressable imageA ∧
    (∀ i, i < sizeofDosHeader →
      (copy_pe_header_with_resources .x86 imageA imageB false).target.data[i]? = imageA[i]?) ∧
    (∀ i, lfanew imageA ≤ i → i < lfanew imageA + sizeofNtHeaders .x86 →
      ¬ (lfanew imageA + offsetofResourceDir .x86 ≤ i
          ∧ i < lfanew imageA + offsetofResourceDir .x86 + sizeofDataDirectory) →
      (copy_pe_header_with_resources .x86 imageA imageB false).target.data[i]? = imageA[i]?) :=
  ⟨by decide, by decide, by decide,
    header_only_copies_source_headers .x86 imageA imageB (by decide) (by decide) (by decide)⟩

theorem writeAt_nil (d : List Nat) (p : Nat) : writeAt d p [] = d := by
  simp [writeAt]

theorem writeAt_append (d x y : List Nat) (p : Nat) :
    writeAt (writeAt d p x) (p + x.length) y = writeAt d p (x ++ y) := by
  by_cases hx : x.length = 0
  · have : x = [] := List.length_eq_zero.mp hx
    subst this
    simp [writeAt_nil]
  by_cases hy : y.length = 0
  · have : y = [] := List.length_eq_zero.mp hy
    subst this
    simp [writeAt_nil]
  apply List.ext_getElem?
  intro i
  simp only [getElem?_writeAt, length_writeAt, length_append, getElem?_append, if_neg hx]
  by_cases h1 : p ≤ i ∧ i < p + x.length
  · have h2 : ¬ (p + x.length ≤ i ∧ i < p + x.length + y.length) := by omega
    have h3 : p ≤ i ∧ i < p + (x.length + y.length) := by omega
    have h4 : i < max d.length (p + x.length) := by omega
    have h5 : i - p < x.length := by omega
    rw [if_neg h2, if_pos h4, if_pos h1, if_pos h3, if_pos h5]
  · by_cases h2 : p + x.length ≤ i ∧ i < p + x.length + y.length
    · have h3 : p ≤ i ∧ i < p + (x.length + y.length) := by omega
      have h5 : ¬ (i - p < x.length) := by omega
      rw [if_pos h2, if_pos h3, if_neg h5]
      congr 1; omega
    · have h3 : ¬ (p ≤ i ∧ i < p + (x.length + y.length)) := by omega
      rw [if_neg h2, if_neg h3, if_neg h1]
      by_cases h6 : i < d.length
      · rw [if_pos (by omega), if_pos h6, if_pos h6]
      · rw [if_neg h6]
        by_cases h7 : i < p
        · rw [if_pos (by omega), if_neg h6, if_pos ⟨h7, hx⟩, if_pos ⟨h7, by omega⟩]
        · rw [if_neg (by omega), if_neg (by omega), if_neg (by omega), if_neg (by omega)]

theorem writeLoop_eq (r : Option (List Nat)) (buf : List Nat) (rem i : Nat) (f : FILE) :
    writeLoop r buf rem i f =
      { data := writeAt f.data f.pos (emittedBytes r buf rem i),
        pos := f.pos + (emittedBytes r buf rem i).length, freads := f.freads } := by
  induction rem generalizing i f with
  | zero => simp [writeLoop, emittedBytes, writeAt_nil]
  | succ n ih =>
    unfold writeLoop emittedBytes
    cases r with
    | none =>
      simp only [ih, fwrite, writeAt_append, length_append, Nat.add_assoc]
    | some r =>
      simp only []
      split
      · simp only [ih, fwrite, writeAt_append, length_append, Nat.add_assoc]
      · simp only [ih, fwrite, writeAt_append, length_append, Nat.add_assoc]

theorem fread_items_eq_iff (f : FILE) (size count : Nat) (hsz : 0 < size)
    (hp : f.pos ≤ f.data.length) :
    (fread f size count).items = count ↔ f.pos + size * count ≤ f.data.length := by
  simp only [fread, length_take, length_drop]
  constructor
  · intro h
    by_contra hc
    have h1 : min (size * count) (f.data.length - f.pos) = f.data.length - f.pos := by omega
    rw [h1] at h
    have h2 : f.data.length - f.pos < size * count := by omega
    have h3 := (Nat.div_lt_iff_lt_mul hsz).mpr (by rw [Nat.mul_comm] at h2; exact h2)
    omega
  · intro h
    have h1 : min (size * count) (f.data.length - f.pos) = size * count := by omega
    rw [h1, Nat.mul_div_cancel_left _ hsz]

theorem sectionStep_eq (a : Arch) (sdos snt tdos tnt : List Nat) (source target : FILE)
    (ps pt : Nat)
    (hs : toLong (e_lfanew sdos + (sizeofNtHeaders a : Int)) = (ps : Int))
    (ht : toLong (e_lfanew tdos + (sizeofNtHeaders a : Int)) = (pt : Int))
    (hps : ps ≤ source.data.length) (hpt : pt ≤ target.data.length) :
    sectionStep a sdos snt tdos tnt source target =
      if ps + sizeofSectionHeader * NumberOfSections snt ≤ source.data.length then
        if pt + sizeofSectionHeader * NumberOfSections tnt ≤ target.data.length then
          (⟨(fread ⟨source.data, ps, source.freads⟩ sizeofSectionHeader
                (NumberOfSections snt)).file,
            ⟨writeAt target.data ps
                (emittedBytes
                  (locateLoop
                    ((target.data.drop pt).take (sizeofSectionHeader * NumberOfSections tnt))
                    (NumberOfSections tnt) 0)
                  ((source.data.drop ps).take (sizeofSectionHeader * NumberOfSections snt))
                  (NumberOfSections snt) 0),
              ps + (emittedBytes
                  (locateLoop
                    ((target.data.drop pt).take (sizeofSectionHeader * NumberOfSections tnt))
                    (NumberOfSections tnt) 0)
                  ((source.data.drop ps).take (sizeofSectionHeader * NumberOfSections snt))
                  (NumberOfSections snt) 0).length,
              target.freads + 1⟩,
            if (locateLoop
                    ((target.data.drop pt).take (sizeofSectionHeader * NumberOfSections tnt))
                    (NumberOfSections tnt) 0).isNone then [Msg.warnNoRsrc] else []⟩, true)
        else
          (⟨(fread ⟨source.data, ps, source.freads⟩ sizeofSectionHeader
                (NumberOfSections snt)).file,
            (fread ⟨target.data, pt, target.freads⟩ sizeofSectionHeader
                (NumberOfSections tnt)).file,
            [Msg.errReadTgtSections]⟩, false)
      else
        (⟨(fread ⟨source.data, ps, source.freads⟩ sizeofSectionHeader
              (NumberOfSections snt)).file, target, [Msg.errReadSrcSections]⟩, false) := by
  have h40 : 0 < sizeofSectionHeader := by simp [sizeofSectionHeader]
  have is := fread_items_eq_iff ⟨source.data, ps, source.freads⟩ sizeofSectionHeader
    (NumberOfSections snt) h40 hps
  have it := fread_items_eq_iff ⟨target.data, pt, target.freads⟩ sizeofSectionHeader
    (NumberOfSections tnt) h40 hpt
  simp only [sectionStep, hs, ht, fseekSet_natCast, ne_eq]
  by_cases c1 : ps + sizeofSectionHeader * NumberOfSections snt ≤ source.data.length
  · rw [if_pos c1, if_neg (not_not.mpr (is.mpr c1))]
    by_cases c2 : pt + sizeofSectionHeader * NumberOfSections tnt ≤ target.data.length
    · rw [if_pos c2, if_neg (not_not.mpr (it.mpr c2))]
      simp only [mergeSections, hs, fseekSet_natCast, writeLoop_eq]
      rfl
    · rw [if_neg c2, if_pos (fun h => c2 (it.mp h))]
  · rw [if_neg c1, if_pos (fun h => c1 (is.mp h))]

theorem strncmp_rsrc (l : List Nat) :
    strncmp l rsrcLiteral 5 = 0 ↔ l.take 5 = [46, 114, 115, 114, 99] := by
  rcases l with _ | ⟨a, _ | ⟨b, _ | ⟨c, _ | ⟨d, _ | ⟨e, t⟩⟩⟩⟩⟩ <;>
    simp [strncmp, rsrcLiteral] <;> omega

theorem strncmp_Name (sec : List Nat) :
    strncmp (Name sec) rsrcLiteral 5 = 0 ↔ isRsrcName sec :=
  strncmp_rsrc (Name sec)

theorem sectionAt_flatten (L : List (List Nat)) (hL : ∀ s ∈ L, s.length = sizeofSectionHeader)
    (i : Nat) (hi : i < L.length) : sectionAt L.flatten i = L[i] := by
  induction L generalizing i with
  | nil => simp at hi
  | cons s t ih =>
    have hs : s.length = sizeofSectionHeader := hL s (mem_cons_self s t)
    cases i with
    | zero =>
      simp only [sectionAt, flatten_cons, Nat.mul_zero, drop_zero, getElem_cons_zero]
      rw [take_append_of_le_length (by omega), take_of_length_le (by omega)]
    | succ k =>
      have hk : k < t.length := by simpa using hi
      have := ih (fun x hx => hL x (mem_cons_of_mem s hx)) k hk
      simp only [getElem_cons_succ, ← this, sectionAt, flatten_cons]
      have e : sizeofSectionHeader * (k + 1) = s.length + sizeofSectionHeader * k := by
        rw [hs, Nat.mul_succ, Nat.add_comm]
      rw [e, drop_append]

theorem locateLoop_flatten (L : List (List Nat))
    (hL : ∀ s ∈ L, s.length = sizeofSectionHeader) (rem i : Nat) (h : i + rem = L.length) :
    locateLoop L.flatten rem i = (L.drop i).find? (fun s => decide (isRsrcName s)) := by
  induction rem generalizing i with
  | zero => rw [drop_of_length_le (by omega)]; rfl
  | succ n ih =>
    have hi : i < L.length := by omega
    rw [drop_eq_getElem_cons hi, find?_cons, locateLoop, sectionAt_flatten L hL i hi,
      ih (i + 1) (by omega)]
    by_cases c : isRsrcName L[i]
    · rw [if_pos ((strncmp_Name _).mpr c)]; simp [c]
    · rw [if_neg (fun h => c ((strncmp_Name _).mp h))]; simp [c]

theorem emittedBytes_flatten (r : Option (List Nat)) (L : List (List Nat))
    (hL : ∀ s ∈ L, s.length = sizeofSectionHeader) (rem i : Nat) (h : i + rem = L.length) :
    emittedBytes r L.flatten rem i =
      ((L.drop i).map (fun s =>
        match r with
        | some r => if isRsrcName s then r else s
        | none => s)).flatten := by
  induction rem generalizing i with
  | zero => rw [drop_of_length_le (by omega)]; rfl
  | succ n ih =>
    have hi : i < L.length := by omega
    rw [drop_eq_getElem_cons hi, map_cons, flatten_cons]
    unfold emittedBytes
    rw [sectionAt_flatten L hL i hi, ih (i + 1) (by omega)]
    congr 1
    cases r with
    | none => rfl
    | some r =>
      simp only []
      by_cases c : isRsrcName L[i]
      · rw [if_pos ((strncmp_Name _).mpr c), if_pos c]
      · rw [if_neg (fun h => c ((strncmp_Name _).mp h)), if_neg c]

/-! ## C5: the section-table merge refines the reference merge -/

/-- C5: for section tables `src` and `dst` (lists of 40-byte headers), the locate loop and the
write loop of lines 125-153 write, at the start of the target's new section table, exactly the
entries of the reference merge `mergeRef src dst`, which has one entry per source entry; the
warning is printed exactly when `dst` has no `.rsrc` entry, and in that case the output is
`src` unchanged. -/
theorem mergeSections_refines_mergeRef (a : Arch) (srcLfanew : Int) (src dst : List (List Nat))
    (target : FILE) (hsrc : ∀ s ∈ src, s.length = sizeofSectionHeader)
    (hdst : ∀ s ∈ dst, s.length = sizeofSectionHeader) :
    (mergeSections a srcLfanew src.flatten src.length dst.flatten dst.length target).2
        = fwrite (fseekSet target (toLong (srcLfanew + (sizeofNtHeaders a : Int))))
            (mergeRef src dst).flatten
      ∧ (mergeRef src dst).length = src.length
      ∧ (firstRsrc dst = none →
          (mergeSections a srcLfanew src.flatten src.length dst.flatten dst.length target).1
              = [Msg.warnNoRsrc]
            ∧ mergeRef src dst = src)
      ∧ (firstRsrc dst ≠ none →
          (mergeSections a srcLfanew src.flatten src.length dst.flatten dst.length target).1
              = []) := by
  have hloc : locateLoop dst.flatten dst.length 0 = firstRsrc dst := by
    rw [locateLoop_flatten dst hdst dst.length 0 (by omega), drop_zero]; rfl
  have hemit : emittedBytes (firstRsrc dst) src.flatten src.length 0
      = (mergeRef src dst).flatten := by
    rw [emittedBytes_flatten _ src hsrc src.length 0 (by omega), drop_zero]; rfl
  refine ⟨?_, ?_, ?_, ?_⟩
  · simp only [mergeSections, writeLoop_eq, hloc, hemit, fwrite]
  · simp [mergeRef]
  · intro h
    constructor
    · simp only [mergeSections, hloc, h, Option.isNone_none, if_true]
    · simp only [mergeRef, h, map_id']
  · intro h
    obtain ⟨r, hr⟩ := Option.ne_none_iff_exists'.mp h
    simp only [mergeSections, hloc, hr, Option.isNone_some, Bool.false_eq_true, if_false]

/-- C5 at the section tables of the sample images: the `.rsrc` entry of the output is the
target's, the `.text` entry is the source's. -/
theorem mergeSections_refines_mergeRef_witness :
    (∀ s ∈ tableA, s.length = sizeofSectionHeader)
      ∧ (∀ s ∈ tableB, s.length = sizeofSectionHeader)
      ∧ mergeRef tableA tableB
          = [demoSection [46, 116, 101, 120, 116] 3, demoSection [46, 114, 115, 114, 99] 8]
      ∧ (mergeSections .x86 64 tableA.flatten tableA.length tableB.flatten tableB.length
            (fopen imageB)).2
          = fwrite (fseekSet (fopen imageB) (toLong (64 + (sizeofNtHeaders .x86 : Int))))
              (mergeRef tableA tableB).flatten :=
  ⟨by decide, by decide, by decide,
    (mergeSections_refines_mergeRef .x86 64 tableA tableB (fopen imageB) (by decide)
      (by decide)).1⟩

theorem length_headerWritten (a : Arch) (S D : List Nat)
    (hS3 : lfanew S + sizeofNtHeaders a ≤ S.length)
    (hD3 : lfanew D + sizeofNtHeaders a ≤ D.length) :
    (headerWritten a S D).length = max D.length (lfanew S + sizeofNtHeaders a) := by
  have hnt := sizeofNtHeaders_ge a
  have hro := offsetofResourceDir_le a
  have hd : sizeofDosHeader = 64 := rfl
  have hdd : sizeofDataDirectory = 8 := rfl
  have l1 : (S.take sizeofDosHeader).length = sizeofDosHeader := by
    simp only [length_take]; omega
  have l2 := length_ntHeadersOf a S hS3
  have l3 := length_resourceDataDirectory a D hD3
  unfold headerWritten
  rw [length_writeAt_of_pos _ _ _ (by omega), length_writeAt_of_pos _ _ _ (by omega),
    length_writeAt_of_pos _ _ _ (by omega), l1, l2, l3]
  omega

/-- What the run with `copy_sections = 1` does on a well-formed pair. -/
theorem copy_sections_eq (a : Arch) (S D : List Nat)
    (hS : wellFormed a S) (hD : wellFormed a D) (hSl : longAddressable S)
    (hDl : longAddressable D) :
    copy_pe_header_with_resources a S D true =
      if sectionTableOffset a S + sizeofSectionHeader * sectionCount a S ≤ S.length then
        if sectionTableOffset a D + sizeofSectionHeader * sectionCount a D
            ≤ (headerWritten a S D).length then
          ⟨(fread ⟨S, sectionTableOffset a S, 2⟩ sizeofSectionHeader (sectionCount a S)).file,
            (iconProbe a (D.take sizeofDosHeader) (ntHeadersOf a D)
              (resourceDataDirectory a (ntHeadersOf a D))
              ⟨sectionsWritten a S D,
                sectionTableOffset a S
                  + (emittedBytes (locateLoop (tgtSectionsRead a S D) (sectionCount a D) 0)
                      (srcSectionsRead a S) (sectionCount a S) 0).length, 3⟩).2,
            (if (locateLoop (tgtSectionsRead a S D) (sectionCount a D) 0).isNone
              then [Msg.warnNoRsrc] else [])
            ++ (iconProbe a (D.take sizeofDosHeader) (ntHeadersOf a D)
              (resourceDataDirectory a (ntHeadersOf a D))
              ⟨sectionsWritten a S D,
                sectionTableOffset a S
                  + (emittedBytes (locateLoop (tgtSectionsRead a S D) (sectionCount a D) 0)
                      (srcSectionsRead a S) (sectionCount a S) 0).length, 3⟩).1
            ++ [Msg.summary true]⟩
        else
          ⟨(fread ⟨S, sectionTableOffset a S, 2⟩ sizeofSectionHeader (sectionCount a S)).file,
            (fread ⟨headerWritten a S D, sectionTableOffset a D, 2⟩ sizeofSectionHeader
              (sectionCount a D)).file,
            [Msg.errReadTgtSections]⟩
      else
        ⟨(fread ⟨S, sectionTableOffset a S, 2⟩ sizeofSectionHeader (sectionCount a S)).file,
          ⟨headerWritten a S D, lfanew S + offsetofResourceDir a + sizeofDataDirectory, 2⟩,
          [Msg.errReadSrcSections]⟩ := by
  have hs : toLong (e_lfanew (S.take sizeofDosHeader) + (sizeofNtHeaders a : Int))
      = ((sectionTableOffset a S : Nat) : Int) := by
    rw [e_lfanew_take]
    exact toLong_lfanew_add S (sizeofNtHeaders a) S.length hS.2.1 hS.2.2.1 hSl
  have ht : toLong (e_lfanew (D.take sizeofDosHeader) + (sizeofNtHeaders a : Int))
      = ((sectionTableOffset a D : Nat) : Int) := by
    rw [e_lfanew_take]
    exact toLong_lfanew_add D (sizeofNtHeaders a) D.length hD.2.1 hD.2.2.1 hDl
  have hlen := length_headerWritten a S D hS.2.2.1 hD.2.2.1
  have hD3 := hD.2.2.1
  rw [copy_of_wellFormed a S D true hS hD hSl]
  simp only [if_true]
  rw [sectionStep_eq a (S.take sizeofDosHeader) (ntHeadersOf a S) (D.take sizeofDosHeader)
    (ntHeadersOf a D) ⟨S, lfanew S + sizeofNtHeaders a, 2⟩
    ⟨headerWritten a S D, lfanew S + offsetofResourceDir a + sizeofDataDirectory, 2⟩
    (sectionTableOffset a S) (sectionTableOffset a D) hs ht
    (by simp only [sectionTableOffset]; exact hS.2.2.1)
    (by simp only [hlen, sectionTableOffset]; omega)]
  simp only [sectionCount, sectionsWritten, tgtSectionsRead, srcSectionsRead]
  split
  · split
    · simp only [Bool.true_eq_false, if_false]
    · simp only [if_true]
  · simp only [if_true]

theorem getElem?_bytesAt (img : List Nat) (off len j : Nat) :
    (bytesAt img off len)[j]? = if j < len then img[off + j]? else none := by
  unfold bytesAt
  rw [getElem?_take]
  split
  · rw [getElem?_drop]
  · rfl

theorem bytesAt_congr (X Y : List Nat) (p q len : Nat)
    (h : ∀ j, j < len → X[p + j]? = Y[q + j]?) : bytesAt X p len = bytesAt Y q len := by
  apply List.ext_getElem?
  intro j
  rw [getElem?_bytesAt, getElem?_bytesAt]
  split
  · exact h j ‹_›
  · rfl

theorem iconLoop_out (n : Nat) (f : FILE) :
    (iconLoop n f).1 = [] ∨ (iconLoop n f).1 = [Msg.iconDetected] := by
  induction n generalizing f with
  | zero => exact Or.inl rfl
  | succ n ih =>
    unfold iconLoop
    split
    · exact Or.inl rfl
    · split
      · exact Or.inr rfl
      · exact ih _

theorem iconProbe_out (a : Arch) (dos nt rd : List Nat) (f : FILE) :
    (iconProbe a dos nt rd f).1 = [] ∨ (iconProbe a dos nt rd f).1 = [Msg.iconDetected]
      ∨ (iconProbe a dos nt rd f).1 = [Msg.noResourceDir] := by
  unfold iconProbe
  split
  · simp only []
    split
    · rcases iconLoop_out _ _ with h | h
      · exact Or.inl h
      · exact Or.inr (Or.inl h)
    · exact Or.inl rfl
  · exact Or.inr (Or.inr rfl)

theorem summary_not_mem_iconProbe (a : Arch) (dos nt rd : List Nat) (f : FILE) (cs : Bool) :
    Msg.summary cs ∉ (iconProbe a dos nt rd f).1 := by
  rcases iconProbe_out a dos nt rd f with h | h | h <;> rw [h] <;> simp

/-- With `copy_sections = 1` the run on a well-formed pair prints its summary exactly when both
section tables can be read, and then the target holds the merged table. -/
theorem copy_sections_success (a : Arch) (S D : List Nat)
    (hS : wellFormed a S) (hD : wellFormed a D) (hSl : longAddressable S)
    (hDl : longAddressable D) :
    (Msg.summary true ∈ (copy_pe_header_with_resources a S D true).out ↔ sectionsReadable a S D)
      ∧ (sectionsReadable a S D →
          (copy_pe_header_with_resources a S D true).target.data = sectionsWritten a S D)
      ∧ (¬ sectionsReadable a S D →
          (copy_pe_header_with_resources a S D true).target.data = headerWritten a S D) := by
  rw [copy_sections_eq a S D hS hD hSl hDl]
  unfold sectionsReadable
  by_cases c1 : sectionTableOffset a S + sizeofSectionHeader * sectionCount a S ≤ S.length
  · by_cases c2 : sectionTableOffset a D + sizeofSectionHeader * sectionCount a D
        ≤ (headerWritten a S D).length
    · rw [if_pos c1, if_pos c2]
      refine ⟨⟨fun _ => ⟨c1, c2⟩, fun _ => by simp⟩, fun _ => iconProbe_data _ _ _ _ _,
        fun h => absurd ⟨c1, c2⟩ h⟩
    · rw [if_pos c1, if_neg c2]
      refine ⟨⟨fun h => by simp at h, fun h => absurd h.2 c2⟩, fun h => absurd h.2 c2,
        fun _ => rfl⟩
  · rw [if_neg c1]
    refine ⟨⟨fun h => by simp at h, fun h => absurd h.1 c1⟩, fun h => absurd h.1 c1,
      fun _ => rfl⟩

/-- With `copy_sections = 1` nothing below the new section table differs from the target as
the header writes left it. -/
theorem copy_sections_below (a : Arch) (S D : List Nat)
    (hS : wellFormed a S) (hD : wellFormed a D) (hSl : longAddressable S)
    (hDl : longAddressable D) (i : Nat) (hi : i < sectionTableOffset a S) :
    (copy_pe_header_with_resources a S D true).target.data[i]? = (headerWritten a S D)[i]? := by
  have h := copy_sections_success a S D hS hD hSl hDl
  by_cases c : sectionsReadable a S D
  · rw [h.2.1 c, sectionsWritten, getElem?_writeAt_out _ _ _ _ (by omega)]
    rw [length_headerWritten a S D hS.2.2.1 hD.2.2.1]
    simp only [sectionTableOffset] at hi
    omega
  · rw [h.2.2 c]

theorem getElem?_target_below (a : Arch) (S D : List Nat) (cs : Bool)
    (hS : wellFormed a S) (hD : wellFormed a D) (hSl : longAddressable S)
    (hDl : longAddressable D) (i : Nat) (hi : i < sectionTableOffset a S) :
    (copy_pe_header_with_resources a S D cs).target.data[i]? = (headerWritten a S D)[i]? := by
  cases cs with
  | false => rw [header_only_data a S D hS hD hSl]
  | true => exact copy_sections_below a S D hS hD hSl hDl i hi

/-! ## C2: the target's resource data-directory entry survives the transplant -/

/-- C2: for well-formed images and either value of `copy_sections`, the 8-byte resource
data-directory entry found in the target after the run, at the source's `e_lfanew` plus the offset of `DataDirectory[IMAGE_DIRECTORY_ENTRY_RESOURCE]`, is the entry the target held
before the run at its own `e_lfanew`; so are its fields `VirtualAddress` and `Size`. -/
theorem resource_entry_restored (a : Arch) (S D : List Nat) (cs : Bool)
    (hS : wellFormed a S) (hD : wellFormed a D) (hSl : longAddressable S)
    (hDl : longAddressable D) :
    bytesAt (copy_pe_header_with_resources a S D cs).target.data
        (lfanew S + offsetofResourceDir a) sizeofDataDirectory
      = bytesAt D (lfanew D + offsetofResourceDir a) sizeofDataDirectory
    ∧ VirtualAddress (bytesAt (copy_pe_header_with_resources a S D cs).target.data
        (lfanew S + offsetofResourceDir a) sizeofDataDirectory)
      = VirtualAddress (resourceDataDirectory a (ntHeadersOf a D))
    ∧ Size (bytesAt (copy_pe_header_with_resources a S D cs).target.data
        (lfanew S + offsetofResourceDir a) sizeofDataDirectory)
      = Size (resourceDataDirectory a (ntHeadersOf a D)) := by
  have hro := offsetofResourceDir_le a
  have hdd : sizeofDataDirectory = 8 := rfl
  have key : bytesAt (copy_pe_header_with_resources a S D cs).target.data
        (lfanew S + offsetofResourceDir a) sizeofDataDirectory
      = bytesAt D (lfanew D + offsetofResourceDir a) sizeofDataDirectory := by
    apply bytesAt_congr
    intro j hj
    rw [getElem?_target_below a S D cs hS hD hSl hDl _
        (by simp only [sectionTableOffset]; omega),
      getElem?_headerWritten a S D _ hS.2.2.1 hD.2.2.1, if_pos (by omega)]
    congr 1; omega
  have e : resourceDataDirectory a (ntHeadersOf a D)
      = bytesAt D (lfanew D + offsetofResourceDir a) sizeofDataDirectory := by
    apply List.ext_getElem?
    intro j
    rw [getElem?_bytesAt]
    split
    · exact getElem?_resourceDataDirectory a D j ‹_›
    · exact getElem?_eq_none (by rw [length_resourceDataDirectory a D hD.2.2.1]; omega)
  rw [key, e]
  exact ⟨rfl, rfl, rfl⟩

/-- C2 at the sample images, with the section table copied. -/
theorem resource_entry_restored_witness :
    wellFormed .x86 imageA ∧ wellFormed .x86 imageB ∧ longAddressable imageA
      ∧ longAddressable imageB
      ∧ bytesAt (copy_pe_header_with_resources .x86 imageA imageB true).target.data
          (lfanew imageA + offsetofResourceDir .x86) sizeofDataDirectory
        = [9, 0, 0, 0, 9, 0, 0, 0] :=
  ⟨by decide, by decide, by decide, by decide,
    (resource_entry_restored .x86 imageA imageB true (by decide) (by decide) (by decide)
      (by decide)).1.trans (by decide)⟩

/-! ## C3: the target's old section table after a header-only run -/

/-- C3 as stated fails: with the source's NT headers at offset 104 and the target's at 64,
the header-only run overwrites the target's section table (bytes 312..351) with bytes of the
source's NT headers. -/
theorem section_table_overwritten_counterexample :
    wellFormed .x86 imageC ∧ wellFormed .x86 imageD ∧ longAddressable imageC
      ∧ longAddressable imageD
      ∧ bytesAt (copy_pe_header_with_resources .x86 imageC imageD false).target.data
          (sectionTableOffset .x86 imageD) (sizeofSectionHeader * sectionCount .x86 imageD)
        ≠ bytesAt imageD (sectionTableOffset .x86 imageD)
          (sizeofSectionHeader * sectionCount .x86 imageD) := by
  decide

/-- C3, amended: after a header-only run on a well-formed pair, every byte of the target's
old section table that lies outside the range `[S.e_lfanew, S.e_lfanew + sizeof(IMAGE_NT_HEADERS))`
is what it was before; the whole table is byte-identical when `S.e_lfanew ≤ D.e_lfanew`. -/
theorem section_table_kept_outside_new_headers (a : Arch) (S D : List Nat)
    (hS : wellFormed a S) (hD : wellFormed a D) (hSl : longAddressable S) :
    (∀ i, sectionTableOffset a D ≤ i →
        i < sectionTableOffset a D + sizeofSectionHeader * sectionCount a D →
        i < D.length → (i < lfanew S ∨ lfanew S + sizeofNtHeaders a ≤ i) →
        (copy_pe_header_with_resources a S D false).target.data[i]? = D[i]?)
      ∧ (lfanew S ≤ lfanew D →
        bytesAt (copy_pe_header_with_resources a S D false).target.data
            (sectionTableOffset a D) (sizeofSectionHeader * sectionCount a D)
          = bytesAt D (sectionTableOffset a D) (sizeofSectionHeader * sectionCount a D)) := by
  have hnt := sizeofNtHeaders_ge a
  have hro := offsetofResourceDir_le a
  have hd : sizeofDosHeader = 64 := rfl
  have hdd : sizeofDataDirectory = 8 := rfl
  rw [header_only_data a S D hS hD hSl]
  constructor
  · intro i h1 _ h3 h4
    simp only [sectionTableOffset] at h1
    rw [getElem?_headerWritten a S D i hS.2.2.1 hD.2.2.1, if_neg (by omega), if_neg (by omega),
      if_neg (by omega), if_pos h3]
  · intro hle
    apply bytesAt_congr
    intro j _
    simp only [sectionTableOffset]
    rw [getElem?_headerWritten a S D _ hS.2.2.1 hD.2.2.1, if_neg (by omega), if_neg (by omega),
      if_neg (by omega)]
    by_cases c : lfanew D + sizeofNtHeaders a + j < D.length
    · rw [if_pos c]
    · rw [if_neg c, if_neg (by omega)]
      exact (getElem?_eq_none (by omega)).symm

/-- C3, amended, at the sample images (both with their NT headers at offset 64). -/
theorem section_table_kept_outside_new_headers_witness :
    wellFormed .x86 imageA ∧ wellFormed .x86 imageB ∧ longAddressable imageA
      ∧ lfanew imageA ≤ lfanew imageB
      ∧ bytesAt (copy_pe_header_with_resources .x86 imageA imageB false).target.data
            (sectionTableOffset .x86 imageB) (sizeofSectionHeader * sectionCount .x86 imageB)
          = bytesAt imageB (sectionTableOffset .x86 imageB)
            (sizeofSectionHeader * sectionCount .x86 imageB) :=
  ⟨by decide, by decide, by decide, by decide,
    (section_table_kept_outside_new_headers .x86 imageA imageB (by decide) (by decide)
      (by decide)).2 (by decide)⟩

theorem emittedBytes_succ (r : Option (List Nat)) (buf : List Nat) (rem i : Nat) :
    emittedBytes r buf (rem + 1) i = emittedEntry r buf i ++ emittedBytes r buf rem (i + 1) := by
  cases r <;> rfl

theorem sectionAt_eq_bytesAt (buf : List Nat) (i : Nat) :
    sectionAt buf i = bytesAt buf (sizeofSectionHeader * i) sizeofSectionHeader := rfl

theorem length_emittedBytes (r : Option (List Nat)) (buf : List Nat) (rem i : Nat)
    (h : ∀ j, i ≤ j → j < i + rem → (emittedEntry r buf j).length = sizeofSectionHeader) :
    (emittedBytes r buf rem i).length = sizeofSectionHeader * rem := by
  induction rem generalizing i with
  | zero => rfl
  | succ n ih =>
    rw [emittedBytes_succ, length_append, h i (by omega) (by omega),
      ih (i + 1) (fun j h1 h2 => h j (by omega) (by omega)), Nat.mul_succ, Nat.add_comm]

theorem getElem?_emittedBytes (r : Option (List Nat)) (buf : List Nat) (rem i k j : Nat)
    (h : ∀ j, i ≤ j → j < i + rem → (emittedEntry r buf j).length = sizeofSectionHeader)
    (hk : k < rem) (hj : j < sizeofSectionHeader) :
    (emittedBytes r buf rem i)[sizeofSectionHeader * k + j]? = (emittedEntry r buf (i + k))[j]? := by
  induction rem generalizing i k with
  | zero => omega
  | succ n ih =>
    have h0 := h i (by omega) (by omega)
    rw [emittedBytes_succ, getElem?_append]
    cases k with
    | zero =>
      rw [if_pos (by omega)]
      simp only [Nat.mul_zero, Nat.zero_add, Nat.add_zero]
    | succ k =>
      rw [if_neg (by rw [h0, Nat.mul_succ]; omega)]
      have e : sizeofSectionHeader * (k + 1) + j - (emittedEntry r buf i).length
          = sizeofSectionHeader * k + j := by
        rw [h0, Nat.mul_succ]; omega
      rw [e, ih (i + 1) k (fun j h1 h2 => h j (by omega) (by omega)) (by omega)]
      congr 2; omega

theorem locateLoop_some (buf : List Nat) (rem i : Nat) (r : List Nat)
    (h : locateLoop buf rem i = some r) :
    ∃ j, i ≤ j ∧ j < i + rem ∧ r = sectionAt buf j ∧ isRsrcName (sectionAt buf j)
      ∧ ∀ k, i ≤ k → k < j → ¬ isRsrcName (sectionAt buf k) := by
  induction rem generalizing i with
  | zero => simp [locateLoop] at h
  | succ n ih =>
    unfold locateLoop at h
    by_cases c : strncmp (Name (sectionAt buf i)) rsrcLiteral 5 = 0
    · rw [if_pos c] at h
      refine ⟨i, by omega, by omega, (Option.some.inj h).symm, (strncmp_Name _).mp c, ?_⟩
      intro k h1 h2; omega
    · rw [if_neg c] at h
      obtain ⟨j, h1, h2, h3, h4, h5⟩ := ih (i + 1) h
      refine ⟨j, by omega, by omega, h3, h4, ?_⟩
      intro k hk1 hk2
      by_cases e : k = i
      · subst e; exact fun hh => c ((strncmp_Name _).mpr hh)
      · exact h5 k (by omega) hk2

theorem locateLoop_none (buf : List Nat) (rem i : Nat) (h : locateLoop buf rem i = none) :
    ∀ k, i ≤ k → k < i + rem → ¬ isRsrcName (sectionAt buf k) := by
  induction rem generalizing i with
  | zero => intro k h1 h2; omega
  | succ n ih =>
    unfold locateLoop at h
    by_cases c : strncmp (Name (sectionAt buf i)) rsrcLiteral 5 = 0
    · rw [if_pos c] at h; exact absurd h (by simp)
    · rw [if_neg c] at h
      intro k hk1 hk2
      by_cases e : k = i
      · subst e; exact fun hh => c ((strncmp_Name _).mpr hh)
      · exact ih (i + 1) h k (by omega) (by omega)

theorem length_sectionAt (buf : List Nat) (i : Nat)
    (h : sizeofSectionHeader * (i + 1) ≤ buf.length) :
    (sectionAt buf i).length = sizeofSectionHeader := by
  simp only [sectionAt, length_take, length_drop]
  rw [Nat.mul_succ] at h
  omega

theorem bytesAt_eq_of_getElem? (X e : List Nat) (p n : Nat) (hl : e.length = n)
    (h : ∀ j, j < n → X[p + j]? = e[j]?) : bytesAt X p n = e := by
  apply List.ext_getElem?
  intro j
  rw [getElem?_bytesAt]
  split
  · exact h j ‹_›
  · exact (getElem?_eq_none (by omega)).symm

theorem le16_congr (X Y : List Nat) (p q : Nat) (h : ∀ j, j < 2 → X[p + j]? = Y[q + j]?) :
    le16 X p = le16 Y q := by
  have h0 := h 0 (by omega)
  have h1 := h 1 (by omega)
  simp only [Nat.add_zero] at h0
  simp only [le16, getD_eq_getElem?_getD, h0, h1]

theorem le32_congr (X Y : List Nat) (p q : Nat) (h : ∀ j, j < 4 → X[p + j]? = Y[q + j]?) :
    le32 X p = le32 Y q := by
  have h0 := h 0 (by omega)
  have h1 := h 1 (by omega)
  have h2 := h 2 (by omega)
  have h3 := h 3 (by omega)
  simp only [Nat.add_zero] at h0
  simp only [le32, getD_eq_getElem?_getD, h0, h1, h2, h3]

theorem length_srcSectionsRead (a : Arch) (S : List Nat)
    (h : sectionTableOffset a S + sizeofSectionHeader * sectionCount a S ≤ S.length) :
    (srcSectionsRead a S).length = sizeofSectionHeader * sectionCount a S := by
  simp only [srcSectionsRead, length_take, length_drop]; omega

theorem length_tgtSectionsRead (a : Arch) (S D : List Nat)
    (h : sectionTableOffset a D + sizeofSectionHeader * sectionCount a D
      ≤ (headerWritten a S D).length) :
    (tgtSectionsRead a S D).length = sizeofSectionHeader * sectionCount a D := by
  simp only [tgtSectionsRead, length_take, length_drop]; omega

theorem length_emittedEntry (a : Arch) (S D : List Nat) (hr : sectionsReadable a S D)
    (k : Nat) (hk : k < sectionCount a S) :
    (emittedEntry (locateLoop (tgtSectionsRead a S D) (sectionCount a D) 0)
      (srcSectionsRead a S) k).length = sizeofSectionHeader := by
  have ls := length_srcSectionsRead a S hr.1
  have lt := length_tgtSectionsRead a S D hr.2
  have hsrc : (sectionAt (srcSectionsRead a S) k).length = sizeofSectionHeader :=
    length_sectionAt _ _ (by
      rw [ls]; exact Nat.mul_le_mul_left _ hk)
  unfold emittedEntry
  cases hloc : locateLoop (tgtSectionsRead a S D) (sectionCount a D) 0 with
  | none => exact hsrc
  | some r =>
    simp only []
    split
    · obtain ⟨j, _, h2, h3, _, _⟩ := locateLoop_some _ _ _ _ hloc
      rw [h3]
      exact length_sectionAt _ _ (by
        rw [lt]; exact Nat.mul_le_mul_left _ (by omega))
    · exact hsrc

/-- After a successful run with `copy_sections = 1`, header `k` of the target's new section
table is the header the write loop emitted in iteration `k`. -/
theorem sectionAt_sectionsWritten (a : Arch) (S D : List Nat) (hr : sectionsReadable a S D)
    (k : Nat) (hk : k < sectionCount a S) :
    sectionAt ((sectionsWritten a S D).drop (sectionTableOffset a S)) k
      = emittedEntry (locateLoop (tgtSectionsRead a S D) (sectionCount a D) 0)
          (srcSectionsRead a S) k := by
  have hlen := length_emittedBytes (locateLoop (tgtSectionsRead a S D) (sectionCount a D) 0)
    (srcSectionsRead a S) (sectionCount a S) 0
    (fun j _ h2 => length_emittedEntry a S D hr j (by omega))
  rw [sectionAt_eq_bytesAt]
  apply bytesAt_eq_of_getElem? _ _ _ _ (length_emittedEntry a S D hr k hk)
  intro j hj
  have hin : sizeofSectionHeader * k + j < sizeofSectionHeader * sectionCount a S := by
    have := Nat.mul_le_mul_left sizeofSectionHeader (Nat.succ_le_of_lt hk)
    rw [Nat.mul_succ] at this
    omega
  rw [getElem?_drop, sectionsWritten, getElem?_writeAt_in _ _ _ _ (by rw [hlen]; omega)]
  have e : sectionTableOffset a S + (sizeofSectionHeader * k + j) - sectionTableOffset a S
      = sizeofSectionHeader * k + j := by omega
  rw [e, getElem?_emittedBytes _ _ _ 0 k j
    (fun j _ h2 => length_emittedEntry a S D hr j (by omega)) hk hj, Nat.zero_add]

theorem sectionAt_srcSectionsRead (a : Arch) (S : List Nat) (k : Nat)
    (hk : k < sectionCount a S) :
    sectionAt (srcSectionsRead a S) k = sectionAt (S.drop (sectionTableOffset a S)) k := by
  rw [sectionAt_eq_bytesAt, sectionAt_eq_bytesAt]
  apply bytesAt_congr
  intro j hj
  have hin : sizeofSectionHeader * k + j < sizeofSectionHeader * sectionCount a S := by
    have := Nat.mul_le_mul_left sizeofSectionHeader (Nat.succ_le_of_lt hk)
    rw [Nat.mul_succ] at this
    omega
  rw [srcSectionsRead, getElem?_take_of_lt hin]

/-- After a run on a well-formed pair the target carries the source's `e_lfanew`. -/
theorem target_e_lfanew (a : Arch) (S D : List Nat) (cs : Bool)
    (hS : wellFormed a S) (hD : wellFormed a D) (hSl : longAddressable S)
    (hDl : longAddressable D) :
    e_lfanew (copy_pe_header_with_resources a S D cs).target.data = e_lfanew S := by
  have hnt := sizeofNtHeaders_ge a
  have hro := offsetofResourceDir_le a
  have hd : sizeofDosHeader = 64 := rfl
  unfold e_lfanew
  congr 2
  apply le32_congr
  intro j hj
  rw [getElem?_target_below a S D cs hS hD hSl hDl _
      (by simp only [sectionTableOffset]; omega),
    getElem?_headerWritten a S D _ hS.2.2.1 hD.2.2.1, if_neg (by omega)]
  by_cases c : lfanew S ≤ 60 + j ∧ 60 + j < lfanew S + sizeofNtHeaders a
  · rw [if_pos c]
  · rw [if_neg c, if_pos (by omega)]

/-- After a run on a well-formed pair the target announces the source's section count. -/
theorem target_sectionCount (a : Arch) (S D : List Nat) (cs : Bool)
    (hS : wellFormed a S) (hD : wellFormed a D) (hSl : longAddressable S)
    (hDl : longAddressable D) :
    sectionCount a (copy_pe_header_with_resources a S D cs).target.data = sectionCount a S := by
  have hnt := sizeofNtHeaders_ge a
  have hro := offsetofResourceDir_le a
  have hdd : sizeofDataDirectory = 8 := rfl
  have hl : lfanew (copy_pe_header_with_resources a S D cs).target.data = lfanew S := by
    unfold lfanew; rw [target_e_lfanew a S D cs hS hD hSl hDl]
  unfold sectionCount NumberOfSections
  apply le16_congr
  intro j hj
  rw [getElem?_ntHeadersOf _ _ _ (by omega), getElem?_ntHeadersOf _ _ _ (by omega), hl,
    getElem?_target_below a S D cs hS hD hSl hDl _
      (by simp only [sectionTableOffset]; omega),
    getElem?_headerWritten a S D _ hS.2.2.1 hD.2.2.1, if_neg (by omega), if_pos (by omega)]

/-! ## C6: the section table after a run with `copy_sections = 1` -/

/-- C6: for well-formed images, after a successful run with `copy_sections = 1` the target
announces the source's `NumberOfSections`, holds that many section headers starting at
`S.e_lfanew + sizeof(IMAGE_NT_HEADERS)`, and each of them at an index where the source's
section name does not begin with `.rsrc` is byte-for-byte the source's header at that index. -/
theorem section_table_copied (a : Arch) (S D : List Nat)
    (hS : wellFormed a S) (hD : wellFormed a D) (hSl : longAddressable S)
    (hDl : longAddressable D)
    (hok : Msg.summary true ∈ (copy_pe_header_with_resources a S D true).out) :
    sectionCount a (copy_pe_header_with_resources a S D true).target.data = sectionCount a S
      ∧ sectionTableOffset a (copy_pe_header_with_resources a S D true).target.data
          = sectionTableOffset a S
      ∧ sectionTableOffset a S + sizeofSectionHeader * sectionCount a S
          ≤ (copy_pe_header_with_resources a S D true).target.data.length
      ∧ ∀ i, i < sectionCount a S →
          ¬ isRsrcName (sectionAt (S.drop (sectionTableOffset a S)) i) →
          sectionAt ((copy_pe_header_with_resources a S D true).target.data.drop
              (sectionTableOffset a S)) i
            = sectionAt (S.drop (sectionTableOffset a S)) i := by
  have h := copy_sections_success a S D hS hD hSl hDl
  have hr : sectionsReadable a S D := h.1.mp hok
  have hlen := length_emittedBytes (locateLoop (tgtSectionsRead a S D) (sectionCount a D) 0)
    (srcSectionsRead a S) (sectionCount a S) 0
    (fun j _ h2 => length_emittedEntry a S D hr j (by omega))
  refine ⟨target_sectionCount a S D true hS hD hSl hDl, ?_, ?_, ?_⟩
  · unfold sectionTableOffset lfanew
    rw [target_e_lfanew a S D true hS hD hSl hDl]
  · have hH := length_headerWritten a S D hS.2.2.1 hD.2.2.1
    rw [h.2.1 hr, sectionsWritten, length_writeAt, hlen]
    simp only [sectionTableOffset]
    split <;> omega
  · intro i hi hn
    rw [h.2.1 hr, sectionAt_sectionsWritten a S D hr i hi]
    have hn' : ¬ strncmp (Name (sectionAt (srcSectionsRead a S) i)) rsrcLiteral 5 = 0 := by
      rw [sectionAt_srcSectionsRead a S i hi]
      exact fun hh => hn ((strncmp_Name _).mp hh)
    unfold emittedEntry
    cases locateLoop (tgtSectionsRead a S D) (sectionCount a D) 0 with
    | none => exact sectionAt_srcSectionsRead a S i hi
    | some r =>
      simp only []
      rw [if_neg hn']
      exact sectionAt_srcSectionsRead a S i hi

/-- C6 at the sample images. -/
theorem section_table_copied_witness :
    wellFormed .x86 imageA ∧ wellFormed .x86 imageB ∧ longAddressable imageA
      ∧ longAddressable imageB
      ∧ Msg.summary true ∈ (copy_pe_header_with_resources .x86 imageA imageB true).out
      ∧ sectionCount .x86 (copy_pe_header_with_resources .x86 imageA imageB true).target.data
          = 2 :=
  ⟨by decide, by decide, by decide, by decide, by decide,
    (section_table_copied .x86 imageA imageB (by decide) (by decide) (by decide) (by decide)
      (by decide)).1.trans (by decide)⟩

/-! ## C4: the target's `.rsrc` section header after a run with `copy_sections = 1` -/

/-- C4, evaluated at `imageC` (source, NT headers at 104) and `imageD` (target, NT headers at
64): the target's section table is read after the header writes have overwritten it, so no
`.rsrc` header is found, the warning is printed, and the final table carries the source's
`.rsrc` header, not the one the target had before the run. -/
theorem rsrc_header_lost_when_headers_overlap :
    wellFormed .x86 imageC ∧ wellFormed .x86 imageD ∧ longAddressable imageC
      ∧ longAddressable imageD
      ∧ firstRsrc (sectionTable imageD (sectionTableOffset .x86 imageD)
          (sectionCount .x86 imageD)) = some (demoSection [46, 114, 115, 114, 99] 8)
      ∧ (copy_pe_header_with_resources .x86 imageC imageD true).out
          = [Msg.warnNoRsrc, Msg.summary true]
      ∧ sectionTable (copy_pe_header_with_resources .x86 imageC imageD true).target.data
          (sectionTableOffset .x86 imageC) (sectionCount .x86 imageC)
          = [demoSection [46, 114, 115, 114, 99] 4]
      ∧ ∃ s ∈ sectionTable (copy_pe_header_with_resources .x86 imageC imageD true).target.data
          (sectionTableOffset .x86 imageC) (sectionCount .x86 imageC),
          isRsrcName s ∧ some s ≠ firstRsrc (sectionTable imageD (sectionTableOffset .x86 imageD)
            (sectionCount .x86 imageD)) := by
  decide

theorem locateLoop_eq_find (buf : List Nat) (rem i : Nat) :
    locateLoop buf rem i
      = ((List.range' i rem).map (sectionAt buf)).find? (fun s => decide (isRsrcName s)) := by
  induction rem generalizing i with
  | zero => rfl
  | succ n ih =>
    rw [range'_succ, map_cons, find?_cons, locateLoop, ih (i + 1)]
    by_cases c : isRsrcName (sectionAt buf i)
    · rw [if_pos ((strncmp_Name _).mpr c)]; simp [c]
    · rw [if_neg (fun h => c ((strncmp_Name _).mp h))]; simp [c]

/-- When the source's NT headers do not start after the target's, the header writes leave the
target's old section table as it was. -/
theorem bytesAt_headerWritten_table (a : Arch) (S D : List Nat) (hS : wellFormed a S)
    (hD : wellFormed a D) (hle : lfanew S ≤ lfanew D) (p n : Nat)
    (hp : sectionTableOffset a D ≤ p) :
    bytesAt (headerWritten a S D) p n = bytesAt D p n := by
  have hnt := sizeofNtHeaders_ge a
  have hro := offsetofResourceDir_le a
  have hd : sizeofDosHeader = 64 := rfl
  have hdd : sizeofDataDirectory = 8 := rfl
  apply bytesAt_congr
  intro j _
  simp only [sectionTableOffset] at hp
  rw [getElem?_headerWritten a S D _ hS.2.2.1 hD.2.2.1, if_neg (by omega), if_neg (by omega),
    if_neg (by omega)]
  by_cases c : p + j < D.length
  · rw [if_pos c]
  · rw [if_neg c, if_neg (by omega)]
    exact (getElem?_eq_none (by omega)).symm

/-- When the source's NT headers do not start after the target's, the locate loop finds the
first `.rsrc` header of the target's section table as it was before the run. -/
theorem locateLoop_tgtSectionsRead (a : Arch) (S D : List Nat) (hS : wellFormed a S)
    (hD : wellFormed a D) (hle : lfanew S ≤ lfanew D) :
    locateLoop (tgtSectionsRead a S D) (sectionCount a D) 0
      = firstRsrc (sectionTable D (sectionTableOffset a D) (sectionCount a D)) := by
  rw [locateLoop_eq_find, firstRsrc, sectionTable, range_eq_range']
  congr 1
  apply map_congr_left
  intro k hk
  have hk' : k < sectionCount a D := by
    have := (mem_range'_1.mp hk).2; omega
  have hin : ∀ j, j < sizeofSectionHeader →
      sizeofSectionHeader * k + j < sizeofSectionHeader * sectionCount a D := by
    intro j hj
    have := Nat.mul_le_mul_left sizeofSectionHeader (Nat.succ_le_of_lt hk')
    rw [Nat.mul_succ] at this
    omega
  rw [sectionAt_eq_bytesAt, sectionAt_eq_bytesAt]
  apply bytesAt_congr
  intro j hj
  rw [tgtSectionsRead, getElem?_take_of_lt (hin j hj), getElem?_drop, getElem?_drop]
  have := bytesAt_headerWritten_table a S D hS hD hle
    (sectionTableOffset a D + (sizeofSectionHeader * k + j)) 1 (by omega)
  have e := congrArg (fun l => l[0]?) this
  simpa [getElem?_bytesAt] using e

/-- The part of C4 that the code achieves: when the source's NT headers do not start after the
target's (`S.e_lfanew ≤ D.e_lfanew`), after a successful run with `copy_sections = 1` every
`.rsrc` header of the final section table is the first `.rsrc` header the target's section
table had before the run. -/
theorem rsrc_header_kept_when_table_intact (a : Arch) (S D : List Nat) (r : List Nat)
    (hS : wellFormed a S) (hD : wellFormed a D) (hSl : longAddressable S)
    (hDl : longAddressable D) (hle : lfanew S ≤ lfanew D)
    (hok : Msg.summary true ∈ (copy_pe_header_with_resources a S D true).out)
    (hr : firstRsrc (sectionTable D (sectionTableOffset a D) (sectionCount a D)) = some r) :
    ∀ s ∈ sectionTable (copy_pe_header_with_resources a S D true).target.data
        (sectionTableOffset a S) (sectionCount a S), isRsrcName s → s = r := by
  have h := copy_sections_success a S D hS hD hSl hDl
  have hrd : sectionsReadable a S D := h.1.mp hok
  have hloc := locateLoop_tgtSectionsRead a S D hS hD hle
  rw [hr] at hloc
  intro s hs hname
  rw [h.2.1 hrd, sectionTable, mem_map] at hs
  obtain ⟨i, hi, rfl⟩ := hs
  have hi' : i < sectionCount a S := mem_range.mp hi
  rw [sectionAt_sectionsWritten a S D hrd i hi', hloc] at hname ⊢
  unfold emittedEntry at hname ⊢
  simp only [] at hname ⊢
  by_cases c : strncmp (Name (sectionAt (srcSectionsRead a S) i)) rsrcLiteral 5 = 0
  · rw [if_pos c]
  · rw [if_neg c] at hname
    exact absurd ((strncmp_Name _).mpr hname) c

/-! ## C7: rejection of malformed images -/

/-- C7, evaluated at `imageE` (source) and `imageB` (target): the source's `e_lfanew` is `-1`,
so no NT headers can be read at its `e_lfanew`; the seek fails, the NT headers are read at
offset 64 instead, the run is not rejected and the target is overwritten. -/
theorem negative_e_lfanew_not_rejected :
    e_magic imageE = IMAGE_DOS_SIGNATURE ∧ e_lfanew imageE = -1 ∧ ¬ wellFormed .x86 imageE
      ∧ wellFormed .x86 imageB
      ∧ (copy_pe_header_with_resources .x86 imageE imageB false).out = [Msg.summary false]
      ∧ (copy_pe_header_with_resources .x86 imageE imageB false).target.data ≠ imageB
      ∧ (copy_pe_header_with_resources .x86 imageE imageB false).target.data[2]? = some 1
      ∧ imageB[2]? = some 5 := by
  decide

theorem fseekSet_pos_e_lfanew (X : List Nat) (k : Nat) :
    (fseekSet ⟨X, sizeofDosHeader, k⟩ (e_lfanew X)) = ⟨X, ntReadOffset X, k⟩ := by
  unfold fseekSet ntReadOffset lfanew
  by_cases c : e_lfanew X < 0
  · rw [if_pos c, if_neg (by omega)]
  · rw [if_neg c, if_pos (by omega)]

/-- An image with a non-negative `e_lfanew` passes the validation exactly when it is
well-formed. -/
theorem accepted_iff_wellFormed (a : Arch) (X : List Nat) (h : 0 ≤ e_lfanew X) :
    accepted a X ↔ wellFormed a X := by
  have hnt := sizeofNtHeaders_ge a
  have hd : sizeofDosHeader = 64 := rfl
  unfold accepted wellFormed ntReadOffset
  rw [if_pos h]
  constructor
  · rintro ⟨_, h2, h3, h4⟩; exact ⟨h2, h, h3, h4⟩
  · rintro ⟨h2, _, h3, h4⟩; exact ⟨by omega, h2, h3, h4⟩

/-- A pair that does not pass the validation of lines 25-69 is rejected before any write: the
target keeps its contents and no summary is printed. -/
theorem rejected_target_untouched (a : Arch) (S D : List Nat) (cs : Bool)
    (h : ¬ (accepted a S ∧ accepted a D)) :
    (copy_pe_header_with_resources a S D cs).target.data = D
      ∧ ∀ c, Msg.summary c ∉ (copy_pe_header_with_resources a S D cs).out := by
  have hd : sizeofDosHeader = 64 := rfl
  have hnt := sizeofNtHeaders_ge a
  unfold copy_pe_header_with_resources
  simp only []
  by_cases c1 : (fread (fopen S) sizeofDosHeader 1).items = 1
  swap
  · rw [if_pos c1]; exact ⟨rfl, by simp⟩
  rw [if_neg (not_not.mpr c1)]
  have l1 : sizeofDosHeader ≤ S.length := by
    have := (fread_one_items (fopen S) sizeofDosHeader (by omega)).mp c1
    simpa [fopen] using this
  have b1 := fread_dos S (by omega)
  rw [b1]
  simp only [e_magic_take, e_lfanew_take]
  by_cases c2 : e_magic S = IMAGE_DOS_SIGNATURE
  swap
  · rw [if_pos c2]; exact ⟨rfl, by simp⟩
  rw [if_neg (not_not.mpr c2)]
  by_cases c3 : (fread (fopen D) sizeofDosHeader 1).items = 1
  swap
  · rw [if_pos c3]; exact ⟨rfl, by simp⟩
  rw [if_neg (not_not.mpr c3)]
  have l2 : sizeofDosHeader ≤ D.length := by
    have := (fread_one_items (fopen D) sizeofDosHeader (by omega)).mp c3
    simpa [fopen] using this
  have b2 := fread_dos D (by omega)
  rw [b2]
  simp only [e_magic_take, e_lfanew_take]
  by_cases c4 : e_magic D = IMAGE_DOS_SIGNATURE
  swap
  · rw [if_pos c4]; exact ⟨rfl, by simp⟩
  rw [if_neg (not_not.mpr c4)]
  rw [fseekSet_pos_e_lfanew S 1, fseekSet_pos_e_lfanew D 1]
  by_cases c5 : (fread ⟨S, ntReadOffset S, 1⟩ (sizeofNtHeaders a) 1).items = 1
  swap
  · rw [if_pos c5]; exact ⟨rfl, by simp⟩
  rw [if_neg (not_not.mpr c5)]
  have l3 := (fread_one_items ⟨S, ntReadOffset S, 1⟩ (sizeofNtHeaders a) (by omega)).mp c5
  rw [fread_one_buf]
  simp only [bytesAt, Signature_take]
  by_cases c6 : Signature (S.drop (ntReadOffset S)) = IMAGE_NT_SIGNATURE
  swap
  · rw [if_pos c6]; exact ⟨rfl, by simp⟩
  rw [if_neg (not_not.mpr c6)]
  by_cases c7 : (fread ⟨D, ntReadOffset D, 1⟩ (sizeofNtHeaders a) 1).items = 1
  swap
  · rw [if_pos c7]; exact ⟨rfl, by simp⟩
  rw [if_neg (not_not.mpr c7)]
  have l4 := (fread_one_items ⟨D, ntReadOffset D, 1⟩ (sizeofNtHeaders a) (by omega)).mp c7
  rw [fread_one_buf]
  simp only [bytesAt, Signature_take]
  by_cases c8 : Signature (D.drop (ntReadOffset D)) = IMAGE_NT_SIGNATURE
  swap
  · rw [if_pos c8]; exact ⟨rfl, by simp⟩
  exact absurd ⟨⟨l1, c2, l3, c6⟩, ⟨l2, c4, l4, c8⟩⟩ h

/-- The part of C7 that the code achieves: when both `e_lfanew` are non-negative and one of the
images is not well-formed, the run is rejected before any write. -/
theorem malformed_rejected_when_e_lfanew_nonneg (a : Arch) (S D : List Nat) (cs : Bool)
    (hS : 0 ≤ e_lfanew S) (hD : 0 ≤ e_lfanew D) (h : ¬ wellFormed a S ∨ ¬ wellFormed a D) :
    (copy_pe_header_with_resources a S D cs).target.data = D
      ∧ ∀ c, Msg.summary c ∉ (copy_pe_header_with_resources a S D cs).out := by
  apply rejected_target_untouched
  rintro ⟨h1, h2⟩
  rcases h with h | h
  · exact h ((accepted_iff_wellFormed a S hS).mp h1)
  · exact h ((accepted_iff_wellFormed a D hD).mp h2)

/-- The lines a header-only run prints on a well-formed pair: the probe's report, then the
summary. -/
theorem header_only_out (a : Arch) (S D : List Nat) (hS : wellFormed a S) (hD : wellFormed a D)
    (hSl : longAddressable S) :
    (copy_pe_header_with_resources a S D false).out =
      (iconProbe a (D.take sizeofDosHeader) (ntHeadersOf a D)
        (resourceDataDirectory a (ntHeadersOf a D))
        ⟨headerWritten a S D, lfanew S + offsetofResourceDir a + sizeofDataDirectory, 2⟩).1
        ++ [Msg.summary false] := by
  rw [copy_of_wellFormed a S D false hS hD hSl]
  simp only [Bool.false_eq_true, if_false, Bool.true_eq_false, nil_append]

/-- The target left by the header writes is again a well-formed image, with the source's
`e_lfanew`. -/
theorem wellFormed_headerWritten (a : Arch) (S D : List Nat) (hS : wellFormed a S)
    (hD : wellFormed a D) :
    wellFormed a (headerWritten a S D) ∧ e_lfanew (headerWritten a S D) = e_lfanew S := by
  have hnt := sizeofNtHeaders_ge a
  have hro := offsetofResourceDir_le a
  have hd : sizeofDosHeader = 64 := rfl
  have hdd : sizeofDataDirectory = 8 := rfl
  have hlen := length_headerWritten a S D hS.2.2.1 hD.2.2.1
  have dos : ∀ i, i < 64 → (headerWritten a S D)[i]? = S[i]? := by
    intro i hi
    rw [getElem?_headerWritten a S D i hS.2.2.1 hD.2.2.1, if_neg (by omega)]
    by_cases c : lfanew S ≤ i ∧ i < lfanew S + sizeofNtHeaders a
    · rw [if_pos c]
    · rw [if_neg c, if_pos (by omega)]
  have he : e_lfanew (headerWritten a S D) = e_lfanew S := by
    unfold e_lfanew
    congr 2
    exact le32_congr _ _ _ _ (fun j hj => dos _ (by omega))
  have hl : lfanew (headerWritten a S D) = lfanew S := by
    unfold lfanew; rw [he]
  refine ⟨⟨?_, ?_, ?_, ?_⟩, he⟩
  · rw [← hS.1]
    exact le16_congr _ _ _ _ (fun j hj => dos _ (by omega))
  · rw [he]; exact hS.2.1
  · rw [hl, hlen]; omega
  · rw [hl, ← hS.2.2.2]
    apply le32_congr
    intro j hj
    rw [getElem?_drop, getElem?_drop, getElem?_headerWritten a S D _ hS.2.2.1 hD.2.2.1,
      if_neg (by omega), if_pos (by omega)]

/-! ## C8: a header-only round trip -/

/-- C8: for well-formed images `A` and `B`, transplanting `A` onto `B` and then the original
`B` onto the result (both without the section table) succeeds, and the final target agrees
with the original `B` on the whole DOS header range and on the whole NT headers range at
`B.e_lfanew`, the resource data-directory entry included. -/
theorem round_trip_restores_headers (a : Arch) (A B : List Nat)
    (hA : wellFormed a A) (hB : wellFormed a B) (hAl : longAddressable A)
    (hBl : longAddressable B) :
    Msg.summary false ∈
        (copy_pe_header_with_resources a B
          (copy_pe_header_with_resources a A B false).target.data false).out
      ∧ (∀ i, i < sizeofDosHeader →
          (copy_pe_header_with_resources a B
            (copy_pe_header_with_resources a A B false).target.data false).target.data[i]?
            = B[i]?)
      ∧ (∀ i, lfanew B ≤ i → i < lfanew B + sizeofNtHeaders a →
          (copy_pe_header_with_resources a B
            (copy_pe_header_with_resources a A B false).target.data false).target.data[i]?
            = B[i]?) := by
  have hnt := sizeofNtHeaders_ge a
  have hro := offsetofResourceDir_le a
  have hd : sizeofDosHeader = 64 := rfl
  have hdd : sizeofDataDirectory = 8 := rfl
  obtain ⟨hW, he⟩ := wellFormed_headerWritten a A B hA hB
  have hl : lfanew (headerWritten a A B) = lfanew A := by
    unfold lfanew; rw [he]
  rw [header_only_data a A B hA hB hAl, header_only_out a B _ hB hW hBl,
    header_only_data a B _ hB hW hBl]
  refine ⟨by simp, fun i hi => ?_, fun i h1 h2 => ?_⟩
  · rw [getElem?_headerWritten a B _ i hB.2.2.1 hW.2.2.1, if_neg (by omega)]
    by_cases c : lfanew B ≤ i ∧ i < lfanew B + sizeofNtHeaders a
    · rw [if_pos c]
    · rw [if_neg c, if_pos hi]
  · rw [getElem?_headerWritten a B _ i hB.2.2.1 hW.2.2.1]
    by_cases c : lfanew B + offsetofResourceDir a ≤ i
        ∧ i < lfanew B + offsetofResourceDir a + sizeofDataDirectory
    · rw [if_pos c, hl, getElem?_headerWritten a A B _ hA.2.2.1 hB.2.2.1, if_pos (by omega)]
      congr 1; omega
    · rw [if_neg c, if_pos ⟨h1, h2⟩]

/-- C8 at the sample images. -/
theorem round_trip_restores_headers_witness :
    wellFormed .x86 imageC ∧ wellFormed .x86 imageD ∧ longAddressable imageC
      ∧ longAddressable imageD
      ∧ ∀ i, lfanew imageD ≤ i → i < lfanew imageD + sizeofNtHeaders .x86 →
          (copy_pe_header_with_resources .x86 imageD
            (copy_pe_header_with_resources .x86 imageC imageD false).target.data
            false).target.data[i]?
            = imageD[i]? :=
  ⟨by decide, by decide, by decide, by decide,
    (round_trip_restores_headers .x86 imageC imageD (by decide) (by decide) (by decide)
      (by decide)).2.2⟩

/-- The scan reports an icon exactly when one of the first `n` entries after the cursor is
fully readable, is not named, and has identifier 3. -/
theorem iconLoop_detects (n : Nat) (f : FILE) :
    Msg.iconDetected ∈ (iconLoop n f).1 ↔
      ∃ i, i < n ∧ f.pos + sizeofResourceDirectoryEntry * (i + 1) ≤ f.data.length
        ∧ NameIsString (bytesAt f.data (f.pos + sizeofResourceDirectoryEntry * i)
            sizeofResourceDirectoryEntry) = 0
        ∧ Id (bytesAt f.data (f.pos + sizeofResourceDirectoryEntry * i)
            sizeofResourceDirectoryEntry) = 3 := by
  have h8 : sizeofResourceDirectoryEntry = 8 := rfl
  induction n generalizing f with
  | zero =>
    simp only [iconLoop, not_mem_nil, false_iff]
    rintro ⟨i, hi, _⟩; omega
  | succ n ih =>
    have hit := fread_one_items f sizeofResourceDirectoryEntry (by omega)
    unfold iconLoop
    by_cases c1 : (fread f sizeofResourceDirectoryEntry 1).items = 1
    · have hp := hit.mp c1
      rw [if_neg (not_not.mpr c1), fread_one_buf]
      by_cases c2 : NameIsString (bytesAt f.data f.pos sizeofResourceDirectoryEntry) = 0
          ∧ Id (bytesAt f.data f.pos sizeofResourceDirectoryEntry) = 3
      · rw [if_pos c2]
        simp only [mem_singleton, true_iff]
        exact ⟨0, by omega, by omega, c2.1, c2.2⟩
      · rw [if_neg c2]
        refine (ih _).trans ?_
        rw [fread_one_file f _ hp]
        simp only [h8] at hp c2 ⊢
        constructor
        · rintro ⟨i, h1, h2, h3, h4⟩
          refine ⟨i + 1, by omega, by omega, ?_, ?_⟩
          · rw [← h3]; congr 2; omega
          · rw [← h4]; congr 2; omega
        · rintro ⟨i, h1, h2, h3, h4⟩
          cases i with
          | zero => exact absurd ⟨h3, h4⟩ c2
          | succ k =>
            refine ⟨k, by omega, by omega, ?_, ?_⟩
            · rw [← h3]; congr 2; omega
            · rw [← h4]; congr 2; omega
    · rw [if_pos c1]
      simp only [not_mem_nil, false_iff]
      rintro ⟨i, _, h2, _⟩
      refine c1 (hit.mpr ?_)
      simp only [h8] at h2 ⊢
      omega

theorem toLong_neg_sizeofResourceDirectory :
    toLong (-(sizeofResourceDirectory : Int)) = -16 := by decide

theorem toLong_sizeofResourceDirectory :
    toLong (sizeofResourceDirectory : Int) = 16 := by decide

/-- When the resource entry is set and a root node can be read at the computed offset, the
probe reports an icon exactly when one of the announced root entries is fully readable, is not
named, and has identifier 3. -/
theorem iconProbe_detects (a : Arch) (dos nt rd : List Nat) (f : FILE) (off : Nat)
    (hva : VirtualAddress rd ≠ 0) (hsz : Size rd ≠ 0)
    (hoff : toLong ((VirtualAddress (resourceDataDirectory a nt) : Int)
        - (ImageBase a nt : Int) + e_lfanew dos) = (off : Int))
    (hread : off + sizeofResourceDirectory ≤ f.data.length) :
    Msg.iconDetected ∈ (iconProbe a dos nt rd f).1 ↔
      ∃ i, i < rootEntryCount f.data off
        ∧ off + sizeofResourceDirectory + sizeofResourceDirectoryEntry * (i + 1)
            ≤ f.data.length
        ∧ NameIsString (rootEntry f.data off i) = 0 ∧ Id (rootEntry f.data off i) = 3 := by
  have h16 : sizeofResourceDirectory = 16 := rfl
  have hit := (fread_one_items ⟨f.data, off, f.freads⟩ sizeofResourceDirectory
    (by omega)).mpr hread
  have hfile := fread_one_file ⟨f.data, off, f.freads⟩ sizeofResourceDirectory hread
  have hbuf := fread_one_buf ⟨f.data, off, f.freads⟩ sizeofResourceDirectory
  have c1 : fseekCur ⟨f.data, off + sizeofResourceDirectory, f.freads + 1⟩ (-16)
      = ⟨f.data, off, f.freads + 1⟩ := by
    unfold fseekCur
    rw [if_neg (by simp only [h16]; omega)]
    congr 1
    simp only [h16]; omega
  have c2 : fseekCur ⟨f.data, off, f.freads + 1⟩ 16
      = ⟨f.data, off + sizeofResourceDirectory, f.freads + 1⟩ := by
    unfold fseekCur
    rw [if_neg (by simp only []; omega)]
    congr 1
  unfold iconProbe
  rw [if_pos ⟨hva, hsz⟩]
  simp only [hoff, fseekSet_natCast, hit, if_true, hfile, hbuf,
    toLong_neg_sizeofResourceDirectory, toLong_sizeofResourceDirectory, c1, c2]
  rw [iconLoop_detects]
  rfl

/-- When the probe is reached, the run prints at most the warning, then the probe's report,
then the summary; the probe runs on the final contents of the target, after 2 reads of the
target (3 with `copy_sections = 1`). -/
theorem copy_probe (a : Arch) (S D : List Nat) (cs : Bool)
    (hS : wellFormed a S) (hD : wellFormed a D) (hSl : longAddressable S)
    (hDl : cs = true → longAddressable D) (hreach : probeReached a S D cs) :
    ∃ (w : List Msg) (pos : Nat), (w = [] ∨ w = [Msg.warnNoRsrc])
      ∧ (copy_pe_header_with_resources a S D cs).out
          = w ++ (iconProbe a (D.take sizeofDosHeader) (ntHeadersOf a D)
              (resourceDataDirectory a (ntHeadersOf a D))
              ⟨(copy_pe_header_with_resources a S D cs).target.data, pos,
                if cs then 3 else 2⟩).1 ++ [Msg.summary cs]
      ∧ (copy_pe_header_with_resources a S D cs).target
          = (iconProbe a (D.take sizeofDosHeader) (ntHeadersOf a D)
              (resourceDataDirectory a (ntHeadersOf a D))
              ⟨(copy_pe_header_with_resources a S D cs).target.data, pos,
                if cs then 3 else 2⟩).2 := by
  cases cs with
  | false =>
    refine ⟨[], lfanew S + offsetofResourceDir a + sizeofDataDirectory, Or.inl rfl, ?_, ?_⟩
    · rw [header_only_data a S D hS hD hSl, header_only_out a S D hS hD hSl]
      simp only [Bool.false_eq_true, if_false, nil_append]
    · rw [header_only_data a S D hS hD hSl, copy_of_wellFormed a S D false hS hD hSl]
      simp only [Bool.false_eq_true, if_false, Bool.true_eq_false]
  | true =>
    have hr : sectionsReadable a S D := by
      rcases hreach with h | h
      · exact absurd h (by simp)
      · exact h
    have hdata := (copy_sections_success a S D hS hD hSl (hDl rfl)).2.1 hr
    refine ⟨if (locateLoop (tgtSectionsRead a S D) (sectionCount a D) 0).isNone
        then [Msg.warnNoRsrc] else [],
      sectionTableOffset a S
        + (emittedBytes (locateLoop (tgtSectionsRead a S D) (sectionCount a D) 0)
            (srcSectionsRead a S) (sectionCount a S) 0).length, ?_, ?_, ?_⟩
    · split
      · exact Or.inr rfl
      · exact Or.inl rfl
    · rw [hdata, copy_sections_eq a S D hS hD hSl (hDl rfl), if_pos hr.1, if_pos hr.2]
      simp only [if_true]
    · rw [hdata, copy_sections_eq a S D hS hD hSl (hDl rfl), if_pos hr.1, if_pos hr.2]
      simp only [if_true]

/-! ## C9: the icon probe -/

/-- C9: when the target's captured resource entry has non-zero address and size and a
resource-directory root node can be read in the target at the file offset
`VirtualAddress - ImageBase + e_lfanew`, the run prints "icon detected" if and only if one of
the `NumberOfNamedEntries + NumberOfIdEntries` entries that follow the root node is present
in the file, has `NameIsString = 0` and has `Id = 3`. -/
theorem icon_reported_iff_root_entry (a : Arch) (S D : List Nat) (cs : Bool) (off : Nat)
    (hS : wellFormed a S) (hD : wellFormed a D) (hSl : longAddressable S)
    (hDl : cs = true → longAddressable D) (hreach : probeReached a S D cs)
    (hva : VirtualAddress (resourceDataDirectory a (ntHeadersOf a D)) ≠ 0)
    (hsz : Size (resourceDataDirectory a (ntHeadersOf a D)) ≠ 0)
    (hoff : rootOffset a D = (off : Int))
    (hread : off + sizeofResourceDirectory
      ≤ (copy_pe_header_with_resources a S D cs).target.data.length) :
    Msg.iconDetected ∈ (copy_pe_header_with_resources a S D cs).out ↔
      ∃ i, i < rootEntryCount (copy_pe_header_with_resources a S D cs).target.data off
        ∧ off + sizeofResourceDirectory + sizeofResourceDirectoryEntry * (i + 1)
            ≤ (copy_pe_header_with_resources a S D cs).target.data.length
        ∧ NameIsString (rootEntry (copy_pe_header_with_resources a S D cs).target.data off i)
            = 0
        ∧ Id (rootEntry (copy_pe_header_with_resources a S D cs).target.data off i) = 3 := by
  obtain ⟨w, pos, hw, hout, _⟩ := copy_probe a S D cs hS hD hSl hDl hreach
  have hoff' : toLong ((VirtualAddress (resourceDataDirectory a (ntHeadersOf a D)) : Int)
      - (ImageBase a (ntHeadersOf a D) : Int) + e_lfanew (D.take sizeofDosHeader))
      = (off : Int) := by
    rw [e_lfanew_take]; exact hoff
  have key := iconProbe_detects a (D.take sizeofDosHeader) (ntHeadersOf a D)
    (resourceDataDirectory a (ntHeadersOf a D))
    ⟨(copy_pe_header_with_resources a S D cs).target.data, pos, if cs then 3 else 2⟩ off
    hva hsz hoff' hread
  rw [← key, hout]
  rcases hw with h | h <;> subst h <;> simp

/-- C9 at the sample images `imageA` (source) and `imageF` (target, with an icon entry). -/
theorem icon_reported_iff_root_entry_witness :
    wellFormed .x86 imageA ∧ wellFormed .x86 imageF ∧ longAddressable imageA
      ∧ probeReached .x86 imageA imageF false
      ∧ VirtualAddress (resourceDataDirectory .x86 (ntHeadersOf .x86 imageF)) ≠ 0
      ∧ Size (resourceDataDirectory .x86 (ntHeadersOf .x86 imageF)) ≠ 0
      ∧ rootOffset .x86 imageF = 314
      ∧ Msg.iconDetected ∈ (copy_pe_header_with_resources .x86 imageA imageF false).out :=
  ⟨by decide, by decide, by decide, by decide, by decide, by decide, by decide,
    (icon_reported_iff_root_entry .x86 imageA imageF false 314 (by decide) (by decide)
      (by decide) (fun h => absurd h (by decide)) (by decide) (by decide) (by decide)
      (by decide) (by decide)).mpr ⟨0, by decide, by decide, by decide, by decide⟩⟩

theorem iconProbe_unset (a : Arch) (dos nt rd : List Nat) (f : FILE)
    (h : VirtualAddress rd = 0 ∨ Size rd = 0) :
    iconProbe a dos nt rd f = ([Msg.noResourceDir], f) := by
  unfold iconProbe
  rw [if_neg (by intro hh; rcases h with h | h; exact hh.1 h; exact hh.2 h)]

/-! ## C10: the icon probe on an unset resource entry -/

/-- C10: for well-formed images whose target has a captured resource entry with
`VirtualAddress = 0` or `Size = 0`, the header-only run prints "no resource directory" and then
its summary, never "icon detected", and reads the target only twice (the DOS header and the NT
headers): no resource-directory byte is read.  With `copy_sections = 1` the same holds whenever
both section tables could be read, after at most the `.rsrc` warning and with one more read
(the section table). -/
theorem unset_resource_entry_reported (a : Arch) (S D : List Nat)
    (hS : wellFormed a S) (hD : wellFormed a D) (hSl : longAddressable S)
    (h0 : VirtualAddress (resourceDataDirectory a (ntHeadersOf a D)) = 0
      ∨ Size (resourceDataDirectory a (ntHeadersOf a D)) = 0) :
    ((copy_pe_header_with_resources a S D false).out
          = [Msg.noResourceDir, Msg.summary false]
        ∧ (copy_pe_header_with_resources a S D false).target.freads = 2)
      ∧ (longAddressable D → sectionsReadable a S D →
          ((copy_pe_header_with_resources a S D true).out
              = [Msg.noResourceDir, Msg.summary true]
            ∨ (copy_pe_header_with_resources a S D true).out
              = [Msg.warnNoRsrc, Msg.noResourceDir, Msg.summary true])
          ∧ (copy_pe_header_with_resources a S D true).target.freads = 3) := by
  constructor
  · obtain ⟨w, pos, hw, hout, htgt⟩ := copy_probe a S D false hS hD hSl
      (fun h => absurd h (by simp)) (Or.inl rfl)
    rw [iconProbe_unset _ _ _ _ _ h0] at hout htgt
    rcases hw with h | h
    · subst h
      exact ⟨by rw [hout]; rfl, by rw [htgt]; rfl⟩
    · subst h
      rw [header_only_out a S D hS hD hSl, iconProbe_unset _ _ _ _ _ h0] at hout
      simp at hout
  · intro hDl hr
    obtain ⟨w, pos, hw, hout, htgt⟩ := copy_probe a S D true hS hD hSl (fun _ => hDl)
      (Or.inr hr)
    rw [iconProbe_unset _ _ _ _ _ h0] at hout htgt
    refine ⟨?_, by rw [htgt]; rfl⟩
    rcases hw with h | h
    · subst h; exact Or.inl (by rw [hout]; rfl)
    · subst h; exact Or.inr (by rw [hout]; rfl)

/-- C10 at the sample images `imageB` (source) and `imageA` (target, resource entry `{0, 0}`). -/
theorem unset_resource_entry_reported_witness :
    wellFormed .x86 imageB ∧ wellFormed .x86 imageA ∧ longAddressable imageB
      ∧ VirtualAddress (resourceDataDirectory .x86 (ntHeadersOf .x86 imageA)) = 0
      ∧ (copy_pe_header_with_resources .x86 imageB imageA false).out
          = [Msg.noResourceDir, Msg.summary false]
      ∧ (copy_pe_header_with_resources .x86 imageB imageA false).target.freads = 2 :=
  ⟨by decide, by decide, by decide, by decide,
    (unset_resource_entry_reported .x86 imageB imageA (by decide) (by decide) (by decide)
      (Or.inl (by decide))).1.1,
    (unset_resource_entry_reported .x86 imageB imageA (by decide) (by decide) (by decide)
      (Or.inl (by decide))).1.2⟩

/-- On a well-formed pair the run writes nothing outside the DOS header range, the range of the
source's NT headers and, with `copy_sections = 1`, the range of the new section table. -/
theorem getElem?_target_outside (a : Arch) (S D : List Nat) (cs : Bool)
    (hS : wellFormed a S) (hD : wellFormed a D) (hSl : longAddressable S)
    (hDl : cs = true → longAddressable D) (i : Nat) (hi : i < D.length) (h1 : sizeofDosHeader ≤ i)
    (h2 : i < lfanew S ∨ lfanew S + sizeofNtHeaders a ≤ i)
    (h3 : cs = true → i < sectionTableOffset a S
      ∨ sectionTableOffset a S + sizeofSectionHeader * sectionCount a S ≤ i) :
    (copy_pe_header_with_resources a S D cs).target.data[i]? = D[i]? := by
  have hro := offsetofResourceDir_le a
  have hdd : sizeofDataDirectory = 8 := rfl
  have hH : (headerWritten a S D)[i]? = D[i]? := by
    rw [getElem?_headerWritten a S D i hS.2.2.1 hD.2.2.1, if_neg (by omega), if_neg (by omega),
      if_neg (by omega), if_pos hi]
  have hlen := length_headerWritten a S D hS.2.2.1 hD.2.2.1
  cases cs with
  | false => rw [header_only_data a S D hS hD hSl, hH]
  | true =>
    have h := copy_sections_success a S D hS hD hSl (hDl rfl)
    by_cases c : sectionsReadable a S D
    · have hE := length_emittedBytes
        (locateLoop (tgtSectionsRead a S D) (sectionCount a D) 0)
        (srcSectionsRead a S) (sectionCount a S) 0
        (fun j _ h2 => length_emittedEntry a S D c j (by omega))
      have h3' := h3 rfl
      rw [h.2.1 c, sectionsWritten, getElem?_writeAt_out _ _ _ _ (by rw [hE]; omega)
        (by rw [hlen]; omega), hH]
    · rw [h.2.2 c, hH]

/-- On a well-formed pair the run never shortens the target. -/
theorem length_target_ge (a : Arch) (S D : List Nat) (cs : Bool)
    (hS : wellFormed a S) (hD : wellFormed a D) (hSl : longAddressable S)
    (hDl : cs = true → longAddressable D) :
    D.length ≤ (copy_pe_header_with_resources a S D cs).target.data.length := by
  have hlen := length_headerWritten a S D hS.2.2.1 hD.2.2.1
  cases cs with
  | false => rw [header_only_data a S D hS hD hSl, hlen]; omega
  | true =>
    have h := copy_sections_success a S D hS hD hSl (hDl rfl)
    by_cases c : sectionsReadable a S D
    · rw [h.2.1 c, sectionsWritten, length_writeAt, hlen]
      split <;> omega
    · rw [h.2.2 c, hlen]; omega

/-- On a well-formed pair the run leaves the target no longer than the larger of its old
length and the end of the written region. -/
theorem length_target_le (a : Arch) (S D : List Nat) (cs : Bool)
    (hS : wellFormed a S) (hD : wellFormed a D) (hSl : longAddressable S)
    (hDl : cs = true → longAddressable D) :
    (copy_pe_header_with_resources a S D cs).target.data.length
      ≤ max D.length (writtenEnd a S cs) := by
  have hlen := length_headerWritten a S D hS.2.2.1 hD.2.2.1
  cases cs with
  | false =>
    rw [header_only_data a S D hS hD hSl, hlen]
    simp only [writtenEnd, sectionTableOffset, Bool.false_eq_true, if_false, Nat.add_zero]
    omega
  | true =>
    have h := copy_sections_success a S D hS hD hSl (hDl rfl)
    simp only [writtenEnd, sectionTableOffset, if_true]
    by_cases c : sectionsReadable a S D
    · have hE := length_emittedBytes
        (locateLoop (tgtSectionsRead a S D) (sectionCount a D) 0)
        (srcSectionsRead a S) (sectionCount a S) 0
        (fun j _ h2 => length_emittedEntry a S D c j (by omega))
      rw [h.2.1 c, sectionsWritten, length_writeAt, hlen, hE]
      simp only [sectionTableOffset]
      split <;> omega
    · rw [h.2.2 c, hlen]; omega

/-! ## C11: the payload of the target's sections -/

/-- C11 as stated fails: the source's NT headers sit at offset 120 and occupy `[120, 368)`,
the target's only section has its raw data at `[352, 360)`; the header-only run overwrites
byte 352 of the target (170 before, 2 after). -/
theorem payload_overwritten_counterexample :
    wellFormed .x86 imageG ∧ wellFormed .x86 imageH ∧ longAddressable imageG
      ∧ longAddressable imageH ∧ sectionCount .x86 imageH = 1
      ∧ PointerToRawData (sectionHeaderOf .x86 imageH 0) = 352
      ∧ SizeOfRawData (sectionHeaderOf .x86 imageH 0) = 8
      ∧ imageH[352]? = some 170
      ∧ (copy_pe_header_with_resources .x86 imageG imageH false).target.data[352]? = some 2 := by
  decide

/-- C11, amended: on a well-formed pair and for either value of `copy_sections`, a byte of the
target inside the raw-data range of one of its old sections keeps its value when its offset
lies outside the ranges the run writes (the DOS header range, the range of the source's NT
headers and, with `copy_sections = 1`, the range of the new section table); the whole raw-data
range of a section is unchanged when it starts at or after the end of the written region. -/
theorem payload_kept_outside_written_ranges (a : Arch) (S D : List Nat) (cs : Bool)
    (hS : wellFormed a S) (hD : wellFormed a D) (hSl : longAddressable S)
    (hDl : cs = true → longAddressable D) (k : Nat) (_hk : k < sectionCount a D) :
    (∀ i, PointerToRawData (sectionHeaderOf a D k) ≤ i →
        i < PointerToRawData (sectionHeaderOf a D k) + SizeOfRawData (sectionHeaderOf a D k) →
        i < D.length → sizeofDosHeader ≤ i →
        (i < lfanew S ∨ lfanew S + sizeofNtHeaders a ≤ i) →
        (cs = true → i < sectionTableOffset a S
          ∨ sectionTableOffset a S + sizeofSectionHeader * sectionCount a S ≤ i) →
        (copy_pe_header_with_resources a S D cs).target.data[i]? = D[i]?)
      ∧ (writtenEnd a S cs ≤ PointerToRawData (sectionHeaderOf a D k) →
        bytesAt (copy_pe_header_with_resources a S D cs).target.data
            (PointerToRawData (sectionHeaderOf a D k)) (SizeOfRawData (sectionHeaderOf a D k))
          = bytesAt D (PointerToRawData (sectionHeaderOf a D k))
              (SizeOfRawData (sectionHeaderOf a D k))) := by
  have hnt := sizeofNtHeaders_ge a
  have hd : sizeofDosHeader = 64 := rfl
  constructor
  · intro i _ _ h3 h4 h5 h6
    exact getElem?_target_outside a S D cs hS hD hSl hDl i h3 h4 h5 h6
  · intro hw
    apply bytesAt_congr
    intro j _
    have hge : writtenEnd a S cs
        ≤ PointerToRawData (sectionHeaderOf a D k) + j := by omega
    have hle := length_target_le a S D cs hS hD hSl hDl
    have hwe : sectionTableOffset a S ≤ writtenEnd a S cs := by
      simp only [writtenEnd]; omega
    by_cases c : PointerToRawData (sectionHeaderOf a D k) + j < D.length
    · refine getElem?_target_outside a S D cs hS hD hSl hDl _ c ?_ ?_ ?_
      · simp only [sectionTableOffset] at hwe; omega
      · simp only [sectionTableOffset] at hwe; omega
      · intro hcs
        subst hcs
        simp only [writtenEnd, if_true] at hge
        omega
    · rw [getElem?_eq_none (by omega), getElem?_eq_none (by omega)]

/-- C11, amended, at the sample images `imageD` (source) and `imageH` (target): the raw data
of `.rsrc` starts at offset 352, beyond the written region, which ends at 312. -/
theorem payload_kept_outside_written_ranges_witness :
    wellFormed .x86 imageD ∧ wellFormed .x86 imageH ∧ longAddressable imageD
      ∧ longAddressable imageH ∧ 0 < sectionCount .x86 imageH
      ∧ writtenEnd .x86 imageD false ≤ PointerToRawData (sectionHeaderOf .x86 imageH 0)
      ∧ bytesAt (copy_pe_header_with_resources .x86 imageD imageH false).target.data
            (PointerToRawData (sectionHeaderOf .x86 imageH 0))
            (SizeOfRawData (sectionHeaderOf .x86 imageH 0))
          = bytesAt imageH (PointerToRawData (sectionHeaderOf .x86 imageH 0))
              (SizeOfRawData (sectionHeaderOf .x86 imageH 0)) :=
  ⟨by decide, by decide, by decide, by decide, by decide, by decide,
    (payload_kept_outside_written_ranges .x86 imageD imageH false (by decide) (by decide)
      (by decide) (fun _ => by decide) 0 (by decide)).2 (by decide)⟩

/-- On a well-formed pair the run leaves the contents of the source as they were: the source
stream is only sought and read. -/
theorem source_data (a : Arch) (S D : List Nat) (cs : Bool)
    (hS : wellFormed a S) (hD : wellFormed a D) (hSl : longAddressable S)
    (hDl : cs = true → longAddressable D) :
    (copy_pe_header_with_resources a S D cs).source.data = S := by
  cases cs with
  | false =>
    rw [copy_of_wellFormed a S D false hS hD hSl]
    simp only [Bool.false_eq_true, if_false, Bool.true_eq_false]
  | true =>
    rw [copy_sections_eq a S D hS hD hSl (hDl rfl)]
    split
    · split
      · rfl
      · rfl
    · rfl

/-! ## C14: the write footprint of the transplant -/

/-- C14: on a well-formed pair the run never shortens the target, leaves unchanged every byte
of the target that lies outside `[0, sizeof(IMAGE_DOS_HEADER))`, outside
`[S.e_lfanew, S.e_lfanew + sizeof(IMAGE_NT_HEADERS))` and, with `copy_sections = 1`, outside the
`S.NumberOfSections` section headers that follow, and never modifies the source. -/
theorem write_footprint (a : Arch) (S D : List Nat) (cs : Bool)
    (hS : wellFormed a S) (hD : wellFormed a D) (hSl : longAddressable S)
    (hDl : cs = true → longAddressable D) :
    D.length ≤ (copy_pe_header_with_resources a S D cs).target.data.length
      ∧ (∀ i, i < D.length → sizeofDosHeader ≤ i →
          (i < lfanew S ∨ lfanew S + sizeofNtHeaders a ≤ i) →
          (cs = true → i < lfanew S + sizeofNtHeaders a
            ∨ lfanew S + sizeofNtHeaders a + sizeofSectionHeader * sectionCount a S ≤ i) →
          (copy_pe_header_with_resources a S D cs).target.data[i]? = D[i]?)
      ∧ (copy_pe_header_with_resources a S D cs).source.data = S :=
  ⟨length_target_ge a S D cs hS hD hSl hDl,
    fun i h1 h2 h3 h4 => getElem?_target_outside a S D cs hS hD hSl hDl i h1 h2 h3 h4,
    source_data a S D cs hS hD hSl hDl⟩

/-- C14 at the sample images, with the section table copied: the target keeps its length and
its source is `imageA` as before. -/
theorem write_footprint_witness :
    wellFormed .x86 imageA ∧ wellFormed .x86 imageB ∧ longAddressable imageA
      ∧ longAddressable imageB
      ∧ imageB.length ≤ (copy_pe_header_with_resources .x86 imageA imageB true).target.data.length
      ∧ (copy_pe_header_with_resources .x86 imageA imageB true).source.data = imageA :=
  ⟨by decide, by decide, by decide, by decide,
    (write_footprint .x86 imageA imageB true (by decide) (by decide) (by decide)
      (fun _ => by decide)).1,
    (write_footprint .x86 imageA imageB true (by decide) (by decide) (by decide)
      (fun _ => by decide)).2.2⟩

/-! ## C15: the header-only transplant is idempotent -/

/-- C15: for well-formed images `S` and `D`, transplanting `S` onto `D` without the section
table and then transplanting the same `S` onto the result again succeeds and leaves the target
byte for byte as the first run left it. -/
theorem header_only_idempotent (a : Arch) (S D : List Nat)
    (hS : wellFormed a S) (hD : wellFormed a D) (hSl : longAddressable S) :
    Msg.summary false ∈
        (copy_pe_header_with_resources a S
          (copy_pe_header_with_resources a S D false).target.data false).out
      ∧ (copy_pe_header_with_resources a S
          (copy_pe_header_with_resources a S D false).target.data false).target.data
        = (copy_pe_header_with_resources a S D false).target.data := by
  have hnt := sizeofNtHeaders_ge a
  have hro := offsetofResourceDir_le a
  have hd : sizeofDosHeader = 64 := rfl
  have hdd : sizeofDataDirectory = 8 := rfl
  obtain ⟨hW, he⟩ := wellFormed_headerWritten a S D hS hD
  have hl : lfanew (headerWritten a S D) = lfanew S := by
    unfold lfanew; rw [he]
  have hlen := length_headerWritten a S D hS.2.2.1 hD.2.2.1
  rw [header_only_data a S D hS hD hSl, header_only_out a S _ hS hW hSl,
    header_only_data a S _ hS hW hSl]
  refine ⟨by simp, ?_⟩
  apply List.ext_getElem?
  intro i
  rw [getElem?_headerWritten a S _ i hS.2.2.1 hW.2.2.1]
  by_cases c1 : lfanew S + offsetofResourceDir a ≤ i
      ∧ i < lfanew S + offsetofResourceDir a + sizeofDataDirectory
  · rw [if_pos c1, hl]
    congr 1; omega
  · rw [if_neg c1]
    by_cases c2 : lfanew S ≤ i ∧ i < lfanew S + sizeofNtHeaders a
    · rw [if_pos c2, getElem?_headerWritten a S D i hS.2.2.1 hD.2.2.1, if_neg c1, if_pos c2]
    · rw [if_neg c2]
      by_cases c3 : i < sizeofDosHeader
      · rw [if_pos c3, getElem?_headerWritten a S D i hS.2.2.1 hD.2.2.1, if_neg c1, if_neg c2,
          if_pos c3]
      · rw [if_neg c3]
        by_cases c4 : i < (headerWritten a S D).length
        · rw [if_pos c4]
        · rw [if_neg c4, if_neg (by omega)]
          exact (getElem?_eq_none (by omega)).symm

/-- C15 at the sample images `imageC` (source) and `imageD` (target). -/
theorem header_only_idempotent_witness :
    wellFormed .x86 imageC ∧ wellFormed .x86 imageD ∧ longAddressable imageC
      ∧ (copy_pe_header_with_resources .x86 imageC
          (copy_pe_header_with_resources .x86 imageC imageD false).target.data false).target.data
        = (copy_pe_header_with_resources .x86 imageC imageD false).target.data :=
  ⟨by decide, by decide, by decide,
    (header_only_idempotent .x86 imageC imageD (by decide) (by decide) (by decide)).2⟩

end PEtransfer

namespace FileSort

/-! ## C12: the order of the files after sorting -/

/-- C12, evaluated with two collected files (`fileSmall` before `fileLarge` in every key):
with no `--sort-order` option, and with `--sort-order desc`, line 247 hands `qsort` the
ascending comparison function, because `strcmp(sort_order, "desc")` is 0 when the order is
`"desc"`; the array comes out in increasing order of size, filename and date, and
`--sort-order asc` gives the decreasing order.  Every permutation of the two files that
`compare_by_size_asc` accepts as sorted is that increasing one. -/
theorem desc_sorts_ascending :
    fileSmall.size_mb < fileLarge.size_mb
      ∧ sortedFiles [] [fileLarge, fileSmall] = some [fileSmall, fileLarge]
      ∧ sortedFiles [str_sort_order, str_desc] [fileLarge, fileSmall]
          = some [fileSmall, fileLarge]
      ∧ sortedFiles [str_sort_order, str_asc] [fileSmall, fileLarge]
          = some [fileLarge, fileSmall]
      ∧ sortedFiles [str_sort_by, str_filename] [fileLarge, fileSmall]
          = some [fileSmall, fileLarge]
      ∧ sortedFiles [str_sort_by, str_date] [fileLarge, fileSmall]
          = some [fileSmall, fileLarge]
      ∧ (∀ files, sortFiles str_size str_desc files
          = if files.length > 0 then qsort compare_by_size_asc files else files)
      ∧ (∀ out : List FileInfo, out.Perm [fileLarge, fileSmall] →
          out.Pairwise (fun x y => compare_by_size_asc x y ≤ 0) →
          out = [fileSmall, fileLarge]) := by
  refine ⟨by decide, by decide, by decide, by decide, by decide, by decide, ?_, ?_⟩
  · intro files
    have h1 : strcmp str_size str_date ≠ 0 := by decide
    have h2 : strcmp str_size str_filename ≠ 0 := by decide
    have h3 : strcmp str_desc str_desc = 0 := by decide
    simp only [sortFiles, h1, h2, h3, ne_eq, not_true_eq_false, if_false]
  · intro out hp hs
    have hl : out.length = 2 := by simpa using hp.length_eq
    match out, hl with
    | [x, y], _ =>
      have hx : x ∈ [fileLarge, fileSmall] := hp.subset (by simp)
      have hy : y ∈ [fileLarge, fileSmall] := hp.subset (by simp)
      have hnd : [x, y].Nodup := hp.nodup_iff.mpr (by decide)
      have hxy : x ≠ y := by
        intro h; subst h; simp at hnd
      have hc : compare_by_size_asc x y ≤ 0 := by
        simpa using hs
      simp only [List.mem_cons, List.mem_singleton, List.not_mem_nil, or_false] at hx hy
      rcases hx with rfl | rfl <;> rcases hy with rfl | rfl
      · exact absurd rfl hxy
      · exact absurd hc (by decide)
      · rfl
      · exact absurd rfl hxy

end FileSort

namespace Replace

/-! ## C13: `replace_in_buffer` substitutes every occurrence -/

theorem substituteFirstFrom_zero (search replace L : List Nat) :
    substituteFirstFrom search replace 0 L 0 = L := by
  cases L <;> simp [substituteFirstFrom]

theorem length_substituteFrom (search replace : List Nat) (hs : search ≠ []) :
    ∀ (L : List Nat) (k : Nat),
      (substituteFrom search replace L k).length + countFrom search L k * search.length
        = (L.length - k) + countFrom search L k * replace.length := by
  intro L
  induction L with
  | nil => intro k; simp [substituteFrom, countFrom]
  | cons c t ih =>
    intro k
    cases k with
    | succ k =>
      simp only [substituteFrom, countFrom, List.length_cons]
      have := ih k
      omega
    | zero =>
      by_cases heq : (c :: t).take search.length = search
      · have hl : search.length ≤ t.length + 1 := by
          have := congrArg List.length heq
          simp only [List.length_take, List.length_cons] at this
          omega
        have hp : 0 < search.length := List.length_pos.mpr hs
        have := ih (search.length - 1)
        simp only [substituteFrom, countFrom, if_pos heq, List.length_append, List.length_cons,
          Nat.add_mul, Nat.one_mul]
        omega
      · have := ih 0
        simp only [substituteFrom, countFrom, if_neg heq, List.length_cons]
        omega

theorem substituteFirstFrom_all (search replace : List Nat) :
    ∀ (L : List Nat) (k b : Nat), countFrom search L k ≤ b →
      substituteFirstFrom search replace b L k = substituteFrom search replace L k := by
  intro L
  induction L with
  | nil => intro k b _; simp [substituteFirstFrom, substituteFrom]
  | cons c t ih =>
    intro k b hb
    cases k with
    | succ k =>
      simp only [countFrom] at hb
      simp only [substituteFirstFrom, substituteFrom]
      exact ih k b hb
    | zero =>
      by_cases heq : (c :: t).take search.length = search
      · simp only [countFrom, if_pos heq] at hb
        cases b with
        | zero => omega
        | succ b =>
          simp only [substituteFirstFrom, substituteFrom, if_pos heq]
          rw [ih _ b (by omega)]
      · simp only [countFrom, if_neg heq] at hb
        cases b with
        | zero =>
          have := ih 0 0 hb
          rw [substituteFirstFrom_zero] at this
          simp only [substituteFirstFrom, substituteFrom, if_neg heq]
          rw [← this]
        | succ b =>
          simp only [substituteFirstFrom, substituteFrom, if_neg heq]
          rw [ih 0 (b + 1) hb]

/-- The amended C13 covers a content as long as `buffer_size` when the substitutions shorten
it: the five-byte buffer `"aaaa\0"` with `buffer_size` 4, `search` `"aa"` and `replace` `"a"`
is left holding `"aa"` after two substitutions. -/
theorem replace_in_buffer_shrinking_example :
    (∀ i, i < countOccurrences [97, 97] [97, 97, 97, 97] →
        (substituteFirst [97, 97] [97] (i + 1) [97, 97, 97, 97]).length < 4)
      ∧ replace_in_buffer [97, 97, 97, 97, 0] 4 [97, 97] [97]
          = some ([97, 97, 0, 0, 0], 2) := by
  decide

/-- The last intermediate result is the fully substituted string. -/
theorem substituteFirst_countOccurrences (search replace s : List Nat) :
    substituteFirst search replace (countOccurrences search s) s
      = substituteAll search replace s :=
  substituteFirstFrom_all search replace s 0 _ (Nat.le_refl _)

/-- When `buffer_size` does not exceed the size of the memory of the buffer, an intermediate
result that is shorter than `buffer_size` fits the memory. -/
theorem fits_memory_of_buffer_size_le (s G search replace : List Nat) (buffer_size : Nat)
    (hsize : buffer_size ≤ (s ++ 0 :: G).length)
    (hfit : ∀ i, i < countOccurrences search s →
      (substituteFirst search replace (i + 1) s).length < buffer_size) :
    ∀ i, i < countOccurrences search s →
      (substituteFirst search replace (i + 1) s).length < (s ++ 0 :: G).length :=
  fun i hi => Nat.lt_of_lt_of_le (hfit i hi) hsize

end Replace
